import Mathlib

/-!
# SandOS kernel: shallow embedding and verification

A shallow embedding of the SandOS RTOS kernel core
(`Source/Src/os_core.c`, `Source/Portable/RISC-V QingkeV4/os_cpu.c`),
with theorems settling the specification claims.

Modelling conventions:
* Tasks are identified by a `TaskId` (a natural number); the arena of
  task control blocks is a function `TaskId → OS_TCB` inside the kernel
  state, mirroring the TCB fields the kernel core reads and writes
  (`State`, `DelayTicks`, `Priority`, `OriginalPrio`).  The stack fields
  (`stackPtr`, `stackLimit`) live in device memory outside the model.
* Intrusive doubly-linked `OS_List`s are modelled as Lean lists of task
  ids: `List_InsertTail` is append, `List_Remove` is `List.erase`
  (callers guarantee membership, per the source contract), `List_PopHead`
  takes the head.
* Machine integers are `Nat` with explicit `% 2 ^ w` where the C code can
  wrap (the 32-bit tick counter, the `uint8_t` mutex nest count, the
  `uint32_t` product in `OS_MemPut`).  `g_PrioMap` is a `Nat` whose bit
  operations mirror the C exactly (`|||` with `1 <<< p`, `&&&` with the
  32-bit complement of `1 <<< p`).
* `OS_ASSERT` in `FindNextTask` cannot fire while the idle task exists;
  the would-be assertion is modelled by `findNextTask` returning `none`.
  The unguarded null dereference in `OS_Tick_Handler`'s wake loop (the C
  condition reads `DelayList.Head->DelayTicks` before testing
  `DelayList.Head != NULL`) is modelled explicitly: the wake loop reports
  a fault when its condition is re-evaluated on an empty list, and the
  tick handler then returns `Except.error`.
* Critical sections (`OS_EnterCritical` / `OS_ExitCritical`) only toggle
  the hardware interrupt mask and balance to zero inside every kernel
  call; the interrupt mask is outside the model, so each kernel API is a
  single atomic state transformation, which matches the single-core
  interrupts-masked execution of the C code.
-/

namespace SandOS

/-- `OS_Status` return codes from `os_core.h`. -/
inductive OS_Status where
  | OS_OK
  | OS_ERR_PARAM
  | OS_ERR_TIMEOUT
  | OS_ERR_RESOURCE
  | OS_ERR_NOT_OWNER
  | OS_ERR_NESTING
  | OS_ERR_Q_FULL
  | OS_ERR_INVALID_ADDR
  | OS_ERR_NOT_ALIGN
  | OS_ERR_ISR
  deriving DecidableEq, Repr

/-- `OS_TaskState` from `os_core.h`. -/
inductive OS_TaskState where
  | TASK_READY
  | TASK_BLOCKED
  | TASK_DELETED
  deriving DecidableEq, Repr

/-- Tasks are identified by an arena index (the stable identity of an
`OS_TCB *` pointer). -/
abbrev TaskId := Nat

/-- The kernel-visible fields of `struct Task_Control_Block`
(`os_core.h`).  `Priority` is a `uint8_t` kept in `0..31` by the
`OS_TaskCreate` parameter check; it is modelled as `Fin 32` so that it
can index the ready table. -/
structure OS_TCB where
  State : OS_TaskState
  DelayTicks : Nat
  Priority : Fin 32
  OriginalPrio : Fin 32
  deriving DecidableEq, Repr

/-- `OS_MAX_PRIO` from `os_core.h`. -/
def OS_MAX_PRIO : Nat := 32

/-- The global kernel state of `os_core.c`: the priority bitmap, the 32
ready lists, the ordered delay list, the running/next task pointers, the
tick counter and the running flag.  Lists hold task ids; per-task fields
live in `tasks`.  `swi` records that `OS_Trigger_SWI()` has been called
(a pending software interrupt). -/
structure Kernel where
  g_PrioMap : Nat
  ReadyList : Fin 32 → List TaskId
  DelayList : List TaskId
  tasks : TaskId → OS_TCB
  CurrentTCB : TaskId
  NextTCB : Option TaskId
  g_SystemTickCount : Nat
  g_OSRunning : Bool
  swi : Bool

/-- Update one task's record in the arena. -/
def setTCB (k : Kernel) (t : TaskId) (b : OS_TCB) : Kernel :=
  { k with tasks := fun x => if x = t then b else k.tasks x }

/-- `List_InsertTail` (`os_core.c`): append at the tail. -/
def List_InsertTail (l : List TaskId) (t : TaskId) : List TaskId := l ++ [t]

/-- `List_Remove` (`os_core.c`): unlink a node.  The caller guarantees
membership; on a list of ids this is `List.erase`. -/
def List_Remove (l : List TaskId) (t : TaskId) : List TaskId := l.erase t

/-- `OS_ReadyListAdd` (`os_core.c` lines 115-120): set bit `Priority` of
`g_PrioMap` (`g_PrioMap |= 1U << prio`), then insert at the tail of
`ReadyList[prio]`. -/
def OS_ReadyListAdd (k : Kernel) (t : TaskId) : Kernel :=
  { k with
    g_PrioMap := k.g_PrioMap ||| (1 <<< ((k.tasks t).Priority : Nat)),
    ReadyList := fun q =>
      if q = (k.tasks t).Priority then
        List_InsertTail (k.ReadyList (k.tasks t).Priority) t
      else k.ReadyList q }

/-- `OS_ReadyListRemove` (`os_core.c` lines 122-128): remove from
`ReadyList[prio]`; if that list became empty, clear bit `prio`
(`g_PrioMap &= ~(1U << prio)`, a 32-bit mask). -/
def OS_ReadyListRemove (k : Kernel) (t : TaskId) : Kernel :=
  { k with
    g_PrioMap :=
      if List_Remove (k.ReadyList (k.tasks t).Priority) t = [] then
        k.g_PrioMap &&& ((2 ^ 32 - 1) ^^^ (1 <<< ((k.tasks t).Priority : Nat)))
      else k.g_PrioMap,
    ReadyList := fun q =>
      if q = (k.tasks t).Priority then
        List_Remove (k.ReadyList (k.tasks t).Priority) t
      else k.ReadyList q }

/-- Invariant (P1): bit `p` of `g_PrioMap` is set iff `ReadyList[p]` is
non-empty. -/
def PrioMapInv (k : Kernel) : Prop :=
  ∀ p : Fin 32, k.g_PrioMap.testBit (p : Nat) ↔ k.ReadyList p ≠ []

instance (k : Kernel) : Decidable (PrioMapInv k) := by
  unfold PrioMapInv; infer_instance

/-- Same-priority rotation from `OS_Tick_Handler` (`os_core.c` lines
227-233): if the current task is Ready and its ready list has more than
one node (`Head != Tail`), move it from its place in that list to the
tail, using raw `List_Remove` / `List_InsertTail` (the bitmap is not
touched). -/
def tickRotate (k : Kernel) : Kernel :=
  if ((k.tasks k.CurrentTCB).State = OS_TaskState.TASK_READY ∧
      (k.ReadyList (k.tasks k.CurrentTCB).Priority).head? ≠
        (k.ReadyList (k.tasks k.CurrentTCB).Priority).getLast?) then
    { k with ReadyList := fun q =>
        if q = (k.tasks k.CurrentTCB).Priority then
          List_InsertTail (List_Remove (k.ReadyList (k.tasks k.CurrentTCB).Priority) k.CurrentTCB) k.CurrentTCB
        else k.ReadyList q }
  else k

theorem testBit_one_shiftLeft (p i : Nat) :
    (1 <<< p).testBit i = decide (p = i) := by
  rw [Nat.shiftLeft_eq, one_mul, Nat.testBit_two_pow]

theorem prioMap_set_testBit (m p i : Nat) :
    (m ||| (1 <<< p)).testBit i = (m.testBit i || decide (p = i)) := by
  rw [Nat.testBit_lor, testBit_one_shiftLeft]

theorem prioMap_clear_testBit (m p i : Nat) (hp : p < 32) :
    (m &&& ((2 ^ 32 - 1) ^^^ (1 <<< p))).testBit i
      = (m.testBit i && decide (i < 32) && !decide (p = i)) := by
  rw [Nat.testBit_land, Nat.testBit_xor, Nat.testBit_two_pow_sub_one,
    testBit_one_shiftLeft]
  by_cases h : p = i
  · subst h
    simp [hp]
  · by_cases hi : i < 32 <;> simp [h, hi]

/-- **C1** — Ready-bitmap consistency: `OS_ReadyListAdd` preserves the
equivalence "bit `p` of `g_PrioMap` is set iff `ReadyList[p]` is
non-empty" (for every priority `p` in `0..31`); `OS_ReadyListRemove`
preserves it; and the tick handler's same-priority rotation (raw remove
then reinsert in the same bucket) preserves it. -/
theorem readyBitmapConsistency (k : Kernel) (t : TaskId) (hk : PrioMapInv k) :
    PrioMapInv (OS_ReadyListAdd k t) ∧ PrioMapInv (OS_ReadyListRemove k t) ∧
      PrioMapInv (tickRotate k) := by
  refine ⟨?_, ?_, ?_⟩
  · intro q
    have hq := hk q
    simp only [OS_ReadyListAdd, prioMap_set_testBit]
    by_cases h : q = (k.tasks t).Priority
    · rw [h] at hq ⊢
      simp [List_InsertTail]
    · have hne : ((k.tasks t).Priority : Nat) ≠ (q : Nat) := by
        intro hc; exact h (Fin.ext hc).symm
      simp [h, hne, hq]
  · intro q
    have hq := hk q
    simp only [OS_ReadyListRemove]
    by_cases h : q = (k.tasks t).Priority
    · rw [h] at hq ⊢
      rw [if_pos rfl]
      by_cases he : List_Remove (k.ReadyList (k.tasks t).Priority) t = []
      · rw [if_pos he,
          prioMap_clear_testBit _ _ _ (k.tasks t).Priority.isLt]
        simp [he]
      · rw [if_neg he]
        have hmem : k.ReadyList (k.tasks t).Priority ≠ [] := by
          intro hc
          exact he (by simp [List_Remove, hc])
        exact iff_of_true (hq.mpr hmem) he
    · rw [if_neg h]
      have hne : ((k.tasks t).Priority : Nat) ≠ (q : Nat) := by
        intro hc; exact h (Fin.ext hc).symm
      by_cases he : List_Remove (k.ReadyList (k.tasks t).Priority) t = []
      · rw [if_pos he,
          prioMap_clear_testBit _ _ _ (k.tasks t).Priority.isLt]
        simp [hne, q.isLt, hq]
      · rw [if_neg he]; exact hq
  · intro q
    have hq := hk q
    unfold tickRotate
    by_cases hc : ((k.tasks k.CurrentTCB).State = OS_TaskState.TASK_READY ∧
        (k.ReadyList (k.tasks k.CurrentTCB).Priority).head? ≠
          (k.ReadyList (k.tasks k.CurrentTCB).Priority).getLast?)
    · rw [if_pos hc]
      dsimp only
      by_cases h : q = (k.tasks k.CurrentTCB).Priority
      · rw [h] at hq ⊢
        rw [if_pos rfl]
        have hmem : k.ReadyList (k.tasks k.CurrentTCB).Priority ≠ [] := by
          intro hnil
          exact hc.2 (by rw [hnil]; rfl)
        exact iff_of_true (hq.mpr hmem) (by simp [List_InsertTail])
      · rw [if_neg h]; exact hq
    · rw [if_neg hc]; exact hq

/-- Witness for `readyBitmapConsistency` at a concrete kernel state:
task 1 is ready at priority 5, task 2 blocked. -/
def kernelW : Kernel :=
  { g_PrioMap := 1 <<< 5 ||| 1 <<< 31
    ReadyList := fun q => if q = 5 then [1] else if q = 31 then [0] else []
    DelayList := []
    tasks := fun x =>
      if x = 1 then ⟨.TASK_READY, 0, 5, 5⟩
      else if x = 2 then ⟨.TASK_BLOCKED, 3, 7, 7⟩
      else ⟨.TASK_READY, 0, 31, 31⟩
    CurrentTCB := 1
    NextTCB := some 1
    g_SystemTickCount := 0
    g_OSRunning := true
    swi := false }

theorem readyBitmapConsistency_witness :
    PrioMapInv kernelW ∧
      (PrioMapInv (OS_ReadyListAdd kernelW 2) ∧
        PrioMapInv (OS_ReadyListRemove kernelW 2) ∧
          PrioMapInv (tickRotate kernelW)) :=
  ⟨by decide, readyBitmapConsistency kernelW 2 (by decide)⟩

/-! ## Priority bitmap lookup (`os_cpu.c`) -/

/-- `OS_MapTable` (`os_cpu.c` lines 3-20): the 256-entry lowest-set-bit
table. -/
def OS_MapTable : List Nat :=
  [0, 0, 1, 0, 2, 0, 1, 0, 3, 0, 1, 0, 2, 0, 1, 0,
   4, 0, 1, 0, 2, 0, 1, 0, 3, 0, 1, 0, 2, 0, 1, 0,
   5, 0, 1, 0, 2, 0, 1, 0, 3, 0, 1, 0, 2, 0, 1, 0,
   4, 0, 1, 0, 2, 0, 1, 0, 3, 0, 1, 0, 2, 0, 1, 0,
   6, 0, 1, 0, 2, 0, 1, 0, 3, 0, 1, 0, 2, 0, 1, 0,
   4, 0, 1, 0, 2, 0, 1, 0, 3, 0, 1, 0, 2, 0, 1, 0,
   5, 0, 1, 0, 2, 0, 1, 0, 3, 0, 1, 0, 2, 0, 1, 0,
   4, 0, 1, 0, 2, 0, 1, 0, 3, 0, 1, 0, 2, 0, 1, 0,
   7, 0, 1, 0, 2, 0, 1, 0, 3, 0, 1, 0, 2, 0, 1, 0,
   4, 0, 1, 0, 2, 0, 1, 0, 3, 0, 1, 0, 2, 0, 1, 0,
   5, 0, 1, 0, 2, 0, 1, 0, 3, 0, 1, 0, 2, 0, 1, 0,
   4, 0, 1, 0, 2, 0, 1, 0, 3, 0, 1, 0, 2, 0, 1, 0,
   6, 0, 1, 0, 2, 0, 1, 0, 3, 0, 1, 0, 2, 0, 1, 0,
   4, 0, 1, 0, 2, 0, 1, 0, 3, 0, 1, 0, 2, 0, 1, 0,
   5, 0, 1, 0, 2, 0, 1, 0, 3, 0, 1, 0, 2, 0, 1, 0,
   4, 0, 1, 0, 2, 0, 1, 0, 3, 0, 1, 0, 2, 0, 1, 0]

/-- `OS_GetTopPrio` (`os_cpu.c` lines 88-98): byte-lane lookup in
`OS_MapTable`, lanes examined from the lowest byte to the highest. -/
def OS_GetTopPrio (PrioMap : Nat) : Nat :=
  if PrioMap &&& 0xFF ≠ 0 then OS_MapTable.getD (PrioMap &&& 0xFF) 0
  else if PrioMap &&& 0xFF00 ≠ 0 then 8 + OS_MapTable.getD ((PrioMap >>> 8) &&& 0xFF) 0
  else if PrioMap &&& 0xFF0000 ≠ 0 then 16 + OS_MapTable.getD ((PrioMap >>> 16) &&& 0xFF) 0
  else 24 + OS_MapTable.getD ((PrioMap >>> 24) &&& 0xFF) 0

set_option maxHeartbeats 1000000 in
set_option maxRecDepth 100000 in
theorem mapTable_correct : ∀ b : Fin 256, 0 < b.val →
    (Nat.testBit b.val (OS_MapTable.getD b.val 0) = true ∧
      ∀ j < OS_MapTable.getD b.val 0, Nat.testBit b.val j = false) := by
  decide

set_option maxHeartbeats 1000000 in
set_option maxRecDepth 100000 in
theorem mapTable_le : ∀ b : Fin 256, OS_MapTable.getD b.val 0 ≤ 7 := by
  decide

theorem byte_testBit (m k j : Nat) :
    ((m >>> k) &&& 0xFF).testBit j = (decide (j < 8) && m.testBit (k + j)) := by
  rw [Nat.testBit_land, Nat.testBit_shiftRight,
    show (0xFF : Nat) = 2 ^ 8 - 1 by norm_num, Nat.testBit_two_pow_sub_one]
  exact Bool.and_comm _ _

theorem byte_lt (m k : Nat) : (m >>> k) &&& 0xFF < 256 :=
  Nat.lt_succ_of_le Nat.and_le_right

theorem byte_zero_iff (m k : Nat) :
    (m >>> k) &&& 0xFF = 0 ↔ ∀ j < 8, m.testBit (k + j) = false := by
  constructor
  · intro h j hj
    have hb := congrArg (fun x => Nat.testBit x j) h
    simp only [byte_testBit, Nat.zero_testBit] at hb
    simpa [hj] using hb
  · intro h
    apply Nat.eq_of_testBit_eq
    intro j
    rw [byte_testBit, Nat.zero_testBit]
    by_cases hj : j < 8
    · simp [hj, h j hj]
    · simp [hj]

theorem mask_eq_byte_shift (m k : Nat) :
    m &&& (0xFF <<< k) = ((m >>> k) &&& 0xFF) <<< k := by
  apply Nat.eq_of_testBit_eq
  intro j
  rw [Nat.testBit_land, Nat.testBit_shiftLeft, Nat.testBit_shiftLeft,
    Nat.testBit_land, Nat.testBit_shiftRight]
  by_cases hk : k ≤ j
  · rw [show k + (j - k) = j by omega]
    cases hm : m.testBit j <;> cases hf : (0xFF : Nat).testBit (j - k) <;>
      simp [hk, hm, hf]
  · simp [hk]

theorem mask_ne_zero_iff (m k : Nat) :
    m &&& (0xFF <<< k) ≠ 0 ↔ (m >>> k) &&& 0xFF ≠ 0 := by
  rw [mask_eq_byte_shift, Nat.shiftLeft_eq]
  constructor
  · intro h hb
    exact h (by rw [hb, zero_mul])
  · intro h hb
    rcases Nat.mul_eq_zero.mp hb with hb | hb
    · exact h hb
    · exact absurd hb (Nat.pos_iff_ne_zero.mp (Nat.pos_pow_of_pos k (by norm_num)))

/-- Correctness of one byte lane: if all bits below the lane are clear
and the lane byte is non-zero, the table lookup yields the lowest set
bit of the whole word. -/
theorem lane_correct (m k : Nat) (hb : (m >>> k) &&& 0xFF ≠ 0)
    (hlow : ∀ j < k, m.testBit j = false) :
    m.testBit (k + OS_MapTable.getD ((m >>> k) &&& 0xFF) 0) = true ∧
      ∀ j < k + OS_MapTable.getD ((m >>> k) &&& 0xFF) 0, m.testBit j = false := by
  have hblt : (m >>> k) &&& 0xFF < 256 := byte_lt m k
  have hpos : 0 < (m >>> k) &&& 0xFF := Nat.pos_of_ne_zero hb
  have hmc := mapTable_correct ⟨(m >>> k) &&& 0xFF, hblt⟩ hpos
  have ht8 : OS_MapTable.getD ((m >>> k) &&& 0xFF) 0 ≤ 7 :=
    mapTable_le ⟨(m >>> k) &&& 0xFF, hblt⟩
  constructor
  · have h1 := hmc.1
    rw [byte_testBit] at h1
    exact ((Bool.and_eq_true _ _).mp h1).2
  · intro j hj
    by_cases hjk : j < k
    · exact hlow j hjk
    · have hj' : j - k < OS_MapTable.getD ((m >>> k) &&& 0xFF) 0 := by omega
      have h2 := hmc.2 (j - k) hj'
      rw [byte_testBit] at h2
      have hjk8 : j - k < 8 := by omega
      simp only [hjk8, decide_True, Bool.true_and] at h2
      rwa [show k + (j - k) = j by omega] at h2

/-- **C7** — Highest-priority lookup: for every 32-bit `map ≠ 0`,
`OS_GetTopPrio map` (the 256-entry table lookup applied to the byte
lanes, lowest lane first) returns the index of the lowest set bit of
`map`: that bit is set, and every lower bit is clear. -/
theorem OS_GetTopPrio_lowest_set_bit (m : Nat) (h0 : m ≠ 0) (h32 : m < 2 ^ 32) :
    m.testBit (OS_GetTopPrio m) = true ∧
      ∀ j < OS_GetTopPrio m, m.testBit j = false := by
  unfold OS_GetTopPrio
  have hm0 : m &&& 0xFF = (m >>> 0) &&& 0xFF := by rw [Nat.shiftRight_zero]
  by_cases h1 : m &&& 0xFF ≠ 0
  · rw [if_pos h1]
    have := lane_correct m 0 (by rwa [← hm0]) (by intro j hj; omega)
    simpa [Nat.shiftRight_zero] using this
  · rw [if_neg h1]
    push_neg at h1
    have hlow8 : ∀ j < 8, m.testBit j = false := by
      intro j hj
      have := (byte_zero_iff m 0).mp (by rwa [← hm0]) j hj
      simpa using this
    by_cases h2 : m &&& 0xFF00 ≠ 0
    · rw [if_pos h2]
      have hb : (m >>> 8) &&& 0xFF ≠ 0 := by
        rw [← mask_ne_zero_iff]
        rwa [show (0xFF : Nat) <<< 8 = 0xFF00 by norm_num [Nat.shiftLeft_eq]]
      exact lane_correct m 8 hb (by intro j hj; exact hlow8 j hj)
    · rw [if_neg h2]
      push_neg at h2
      have hb8 : (m >>> 8) &&& 0xFF = 0 := by
        by_contra hb
        exact ((mask_ne_zero_iff m 8).mpr hb)
          (by rwa [show (0xFF : Nat) <<< 8 = 0xFF00 by norm_num [Nat.shiftLeft_eq]])
      have hlow16 : ∀ j < 16, m.testBit j = false := by
        intro j hj
        by_cases hj8 : j < 8
        · exact hlow8 j hj8
        · have := (byte_zero_iff m 8).mp hb8 (j - 8) (by omega)
          rwa [show 8 + (j - 8) = j by omega] at this
      by_cases h3 : m &&& 0xFF0000 ≠ 0
      · rw [if_pos h3]
        have hb : (m >>> 16) &&& 0xFF ≠ 0 := by
          rw [← mask_ne_zero_iff]
          rwa [show (0xFF : Nat) <<< 16 = 0xFF0000 by norm_num [Nat.shiftLeft_eq]]
        exact lane_correct m 16 hb (by intro j hj; exact hlow16 j hj)
      · rw [if_neg h3]
        push_neg at h3
        have hb16 : (m >>> 16) &&& 0xFF = 0 := by
          by_contra hb
          exact ((mask_ne_zero_iff m 16).mpr hb)
            (by rwa [show (0xFF : Nat) <<< 16 = 0xFF0000 by norm_num [Nat.shiftLeft_eq]])
        have hlow24 : ∀ j < 24, m.testBit j = false := by
          intro j hj
          by_cases hj16 : j < 16
          · exact hlow16 j hj16
          · have := (byte_zero_iff m 16).mp hb16 (j - 16) (by omega)
            rwa [show 16 + (j - 16) = j by omega] at this
        have hb : (m >>> 24) &&& 0xFF ≠ 0 := by
          intro hb24
          apply h0
          apply Nat.eq_of_testBit_eq
          intro j
          rw [Nat.zero_testBit]
          by_cases hj24 : j < 24
          · exact hlow24 j hj24
          · by_cases hj32 : j < 32
            · have := (byte_zero_iff m 24).mp hb24 (j - 24) (by omega)
              rwa [show 24 + (j - 24) = j by omega] at this
            · exact Nat.testBit_lt_two_pow
                (lt_of_lt_of_le h32 (Nat.pow_le_pow_right (by norm_num) (by omega)))
        exact lane_correct m 24 hb (by intro j hj; exact hlow24 j hj)

theorem OS_GetTopPrio_lt (m : Nat) : OS_GetTopPrio m < 32 := by
  unfold OS_GetTopPrio
  have h0 := mapTable_le ⟨m &&& 0xFF, Nat.lt_succ_of_le Nat.and_le_right⟩
  have h8 := mapTable_le ⟨(m >>> 8) &&& 0xFF, byte_lt m 8⟩
  have h16 := mapTable_le ⟨(m >>> 16) &&& 0xFF, byte_lt m 16⟩
  have h24 := mapTable_le ⟨(m >>> 24) &&& 0xFF, byte_lt m 24⟩
  dsimp only at h0 h8 h16 h24
  split_ifs <;> omega

/-- Witness for `OS_GetTopPrio_lowest_set_bit` at `map = 0x00040000`
(lowest set bit 18). -/
theorem OS_GetTopPrio_lowest_set_bit_witness :
    Nat.testBit 0x00040000 (OS_GetTopPrio 0x00040000) = true ∧
      ∀ j < OS_GetTopPrio 0x00040000, Nat.testBit 0x00040000 j = false :=
  OS_GetTopPrio_lowest_set_bit 0x00040000 (by decide) (by norm_num)

/-! ## Scheduler core: `FindNextTask`, tick handler, `OS_Delay` -/

/-- `FindNextTask` (`os_core.c` lines 130-139): the head of the ready
list selected by `OS_GetTopPrio`.  The two `OS_ASSERT`s (empty bitmap,
null head) are modelled by returning `none`. -/
def FindNextTask (k : Kernel) : Option TaskId :=
  if k.g_PrioMap ≠ 0 then
    (k.ReadyList ⟨OS_GetTopPrio k.g_PrioMap, OS_GetTopPrio_lt _⟩).head?
  else none

/-- Write a task's `State` field. -/
def setState (k : Kernel) (t : TaskId) (s : OS_TaskState) : Kernel :=
  setTCB k t { k.tasks t with State := s }

/-- Write a task's `DelayTicks` field. -/
def setDelayTicks (k : Kernel) (t : TaskId) (d : Nat) : Kernel :=
  setTCB k t { k.tasks t with DelayTicks := d }

/-- Set `CurrentTCB`; in the C kernel this assignment is performed by
the port's context-switch code, which dispatches `NextTCB` into
`CurrentTCB`.  Scenarios use it to model which task runs next. -/
def setCurrent (k : Kernel) (t : TaskId) : Kernel := { k with CurrentTCB := t }

/-- The wake loop of `OS_Tick_Handler` (`os_core.c` lines 219-224).  The
C loop condition is `DelayList.Head->DelayTicks == 0 && DelayList.Head
!= NULL`: it dereferences the head BEFORE the null test, so when the
pops empty the list the re-evaluated condition reads through a null
pointer.  Returns the kernel after the performed wakes, the woken tasks
in pop order, the remaining delay list, and a flag that is true exactly
when the condition dereferenced null. -/
def tickWakeLoop (k : Kernel) : List TaskId → Kernel × List TaskId × List TaskId × Bool
  | [] => (k, [], [], true)
  | t :: rest =>
    if (k.tasks t).DelayTicks = 0 then
      let r := tickWakeLoop (OS_ReadyListAdd (setState k t .TASK_READY) t) rest
      (r.1, t :: r.2.1, r.2.2.1, r.2.2.2)
    else (k, [], t :: rest, false)

/-- The delay-list phase of `OS_Tick_Handler` (`os_core.c` lines
215-225): if the delay list is non-empty, decrement the head's
`DelayTicks` (clamped at zero), then run the wake loop.  Returns the
updated kernel, the woken tasks in order, and the null-dereference
flag. -/
def tickDelayStep (k : Kernel) : Kernel × List TaskId × Bool :=
  match k.DelayList with
  | [] => (k, [], false)
  | hd :: rest =>
    let k1 := if (k.tasks hd).DelayTicks > 0
              then setDelayTicks k hd ((k.tasks hd).DelayTicks - 1) else k
    let r := tickWakeLoop k1 (hd :: rest)
    ({ r.1 with DelayList := r.2.2.1 }, r.2.1, r.2.2.2)

/-- `OS_Tick_Handler` (`os_core.c` lines 202-242): no-op unless the
scheduler is running; count the tick (32-bit wrap); process the delay
list; rotate the current priority band; recompute `NextTCB` and request
a switch if it differs from `CurrentTCB`.  The stack-overflow audit
reads device memory outside the model.  `Except.error` is the null
dereference of the wake loop. -/
def OS_Tick_Handler (k : Kernel) : Except Unit Kernel :=
  if k.g_OSRunning ≠ true then .ok k
  else
    let k1 := { k with g_SystemTickCount := (k.g_SystemTickCount + 1) % 2 ^ 32 }
    let r := tickDelayStep k1
    if r.2.2 then .error ()
    else
      let k2 := tickRotate r.1
      let k3 := { k2 with NextTCB := FindNextTask k2 }
      if k3.NextTCB ≠ some k3.CurrentTCB then .ok { k3 with swi := true } else .ok k3

/-- A kernel state about to take a tick with `DelayList = [2]` and task
2 one tick from expiry: the wake empties the delay list. -/
def kTickCrash : Kernel :=
  { g_PrioMap := 1 <<< 31
    ReadyList := fun q => if q = 31 then [0] else []
    DelayList := [2]
    tasks := fun x =>
      if x = 2 then ⟨.TASK_BLOCKED, 1, 7, 7⟩ else ⟨.TASK_READY, 0, 31, 31⟩
    CurrentTCB := 0
    NextTCB := some 0
    g_SystemTickCount := 0
    g_OSRunning := true
    swi := false }

/-- **C3** — Tick-handler delay processing (code bug): at the concrete
reachable state `kTickCrash` (delay list `[2]`, head delta 1), the tick
decrements the head to zero and the wake loop pops and readies task 2 —
but then the loop condition `DelayList.Head->DelayTicks == 0 &&
DelayList.Head != NULL` re-reads the now-null head before testing it,
so the handler faults instead of completing the claimed processing:
the woken set is `[2]` yet the handler returns no final state. -/
theorem tickDelayProcessing_fault :
    (tickDelayStep { kTickCrash with
        g_SystemTickCount := (kTickCrash.g_SystemTickCount + 1) % 2 ^ 32 }).2.1 = [2] ∧
      OS_Tick_Handler kTickCrash = .error () := by
  constructor
  · rfl
  · rfl

/-- A kernel state whose tick wakes two tasks on the same tick (deltas
1 and 0), emptying the delay list. -/
def kTickCrash2 : Kernel :=
  { g_PrioMap := 1 <<< 31
    ReadyList := fun q => if q = 31 then [0] else []
    DelayList := [2, 3]
    tasks := fun x =>
      if x = 2 then ⟨.TASK_BLOCKED, 1, 7, 7⟩
      else if x = 3 then ⟨.TASK_BLOCKED, 0, 9, 9⟩
      else ⟨.TASK_READY, 0, 31, 31⟩
    CurrentTCB := 0
    NextTCB := some 0
    g_SystemTickCount := 5
    g_OSRunning := true
    swi := false }

/-- **C4** — wake-loop null test does not guard the dereference (code
bug): when every delayed task expires on the same tick (here deltas 1
and 0), the pops empty the list and the loop condition reads
`DelayList.Head->DelayTicks` with `DelayList.Head == NULL` — the null
test stands to the RIGHT of the dereference in the `&&` — so
`OS_Tick_Handler` is not total: it faults at this reachable state. -/
theorem tickWakeLoop_null_deref :
    OS_Tick_Handler kTickCrash2 = .error () := by rfl

/-- The insertion walk of `OS_Delay` (`os_core.c` lines 251-298):
subtract each predecessor's `DelayTicks` from the remaining ticks while
`ticks >= iter->DelayTicks`; at the stop point store the residual in
the current task's `DelayTicks` and subtract it from the successor's
(source cases C and D are the same list operation; case B is the end of
the walk and case A, empty list, the base case). -/
def updDelay (tasks : TaskId → OS_TCB) (x0 : TaskId) (d : Nat) : TaskId → OS_TCB :=
  fun x => if x = x0 then { tasks x0 with DelayTicks := d } else tasks x

theorem updDelay_same (tasks : TaskId → OS_TCB) (x0 : TaskId) (d : Nat) :
    updDelay tasks x0 d x0 = { tasks x0 with DelayTicks := d } := by
  simp [updDelay]

theorem updDelay_other (tasks : TaskId → OS_TCB) (x0 : TaskId) (d : Nat)
    (x : TaskId) (h : x ≠ x0) : updDelay tasks x0 d x = tasks x := by
  simp [updDelay, h]

def OS_DelayInsert (tasks : TaskId → OS_TCB) (cur : TaskId) (ticks : Nat) :
    List TaskId → (TaskId → OS_TCB) × List TaskId
  | [] => (updDelay tasks cur ticks, [cur])
  | t :: rest =>
    if ticks ≥ (tasks t).DelayTicks then
      let r := OS_DelayInsert tasks cur (ticks - (tasks t).DelayTicks) rest
      (r.1, t :: r.2)
    else
      (updDelay (updDelay tasks cur ticks) t ((tasks t).DelayTicks - ticks),
       cur :: t :: rest)

/-- `OS_Delay` (`os_core.c` lines 244-305): block the caller, remove it
from the ready-set, insert it into the delta-encoded delay list, then
recompute `NextTCB` and request a switch. -/
def OS_Delay (k : Kernel) (ticks : Nat) : Kernel :=
  let k2 := OS_ReadyListRemove (setState k k.CurrentTCB .TASK_BLOCKED) k.CurrentTCB
  let r := OS_DelayInsert k2.tasks k2.CurrentTCB ticks k2.DelayList
  let k3 := { k2 with tasks := r.1, DelayList := r.2 }
  { k3 with NextTCB := FindNextTask k3, swi := true }

/-- Absolute wake offsets: the running sums of `DelayTicks` along the
delay list, starting from `acc`. -/
def delayAbsOffsets (tasks : TaskId → OS_TCB) (acc : Nat) : List TaskId → List Nat
  | [] => []
  | t :: rest =>
    (acc + (tasks t).DelayTicks) :: delayAbsOffsets tasks (acc + (tasks t).DelayTicks) rest

theorem delayAbsOffsets_congr (t1 t2 : TaskId → OS_TCB) (acc : Nat) (l : List TaskId)
    (h : ∀ x ∈ l, (t1 x).DelayTicks = (t2 x).DelayTicks) :
    delayAbsOffsets t1 acc l = delayAbsOffsets t2 acc l := by
  induction l generalizing acc with
  | nil => rfl
  | cons t rest ih =>
    simp only [delayAbsOffsets]
    rw [h t (by simp)]
    rw [ih _ (fun x hx => h x (by simp [hx]))]

theorem OS_DelayInsert_keeps (tasks : TaskId → OS_TCB) (cur : TaskId) (ticks : Nat)
    (l : List TaskId) (x : TaskId) (hx : x ≠ cur) (hl : x ∉ l) :
    (OS_DelayInsert tasks cur ticks l).1 x = tasks x := by
  induction l generalizing ticks with
  | nil => simp [OS_DelayInsert, updDelay, hx]
  | cons t rest ih =>
    simp only [OS_DelayInsert]
    by_cases hge : ticks ≥ (tasks t).DelayTicks
    · rw [if_pos hge]
      exact ih _ (by intro hc; exact hl (by simp [hc]))
    · rw [if_neg hge]
      have hxt : x ≠ t := by intro hc; exact hl (by simp [hc])
      simp [updDelay, hx, hxt]

theorem OS_DelayInsert_cur_state (tasks : TaskId → OS_TCB) (cur : TaskId)
    (ticks : Nat) (l : List TaskId) :
    ((OS_DelayInsert tasks cur ticks l).1 cur).State = (tasks cur).State := by
  induction l generalizing ticks with
  | nil => simp [OS_DelayInsert, updDelay]
  | cons t rest ih =>
    simp only [OS_DelayInsert]
    by_cases hge : ticks ≥ (tasks t).DelayTicks
    · rw [if_pos hge]; exact ih _
    · rw [if_neg hge]
      by_cases hct : cur = t
      · subst hct
        simp [updDelay]
      · simp [updDelay, hct]

/-- The insertion walk in offset space: inserting with `ticks` remaining
places the new node after exactly the prefix of nodes whose absolute
offsets are `≤ acc + ticks`, gives the new node absolute offset
`acc + ticks`, and leaves every other node's absolute offset
unchanged. -/
theorem OS_DelayInsert_offsets (l : List TaskId) (tasks : TaskId → OS_TCB)
    (cur : TaskId) (ticks acc : Nat) (hcur : cur ∉ l) (hnd : l.Nodup) :
    delayAbsOffsets (OS_DelayInsert tasks cur ticks l).1 acc
        (OS_DelayInsert tasks cur ticks l).2
      = (delayAbsOffsets tasks acc l).takeWhile (fun s => decide (s ≤ acc + ticks))
        ++ (acc + ticks) ::
          (delayAbsOffsets tasks acc l).dropWhile (fun s => decide (s ≤ acc + ticks)) := by
  induction l generalizing ticks acc with
  | nil =>
    simp [OS_DelayInsert, delayAbsOffsets, updDelay]
  | cons t rest ih =>
    have hct : cur ≠ t := by intro hc; exact hcur (by simp [hc])
    have hcr : cur ∉ rest := fun hc => hcur (by simp [hc])
    have htr : t ∉ rest := (List.nodup_cons.mp hnd).1
    have hndr : rest.Nodup := (List.nodup_cons.mp hnd).2
    simp only [OS_DelayInsert]
    by_cases hge : ticks ≥ (tasks t).DelayTicks
    · rw [if_pos hge]
      simp only [delayAbsOffsets]
      have hkeep : ((OS_DelayInsert tasks cur (ticks - (tasks t).DelayTicks) rest).1 t)
          = tasks t := OS_DelayInsert_keeps _ _ _ _ _ (Ne.symm hct) htr
      rw [hkeep]
      have := ih (ticks - (tasks t).DelayTicks) (acc + (tasks t).DelayTicks) hcr hndr
      rw [this]
      have hacc : acc + (tasks t).DelayTicks + (ticks - (tasks t).DelayTicks)
          = acc + ticks := by omega
      rw [hacc]
      have hle : ((fun s => decide (s ≤ acc + ticks))
          (acc + (tasks t).DelayTicks)) = true := by
        simp
        omega
      rw [List.takeWhile_cons_of_pos (p := fun s => decide (s ≤ acc + ticks)) hle,
        List.dropWhile_cons_of_pos (p := fun s => decide (s ≤ acc + ticks)) hle,
        List.cons_append]
    · rw [if_neg hge]
      simp only [delayAbsOffsets]
      have e1 : (updDelay (updDelay tasks cur ticks) t
          ((tasks t).DelayTicks - ticks) cur).DelayTicks = ticks := by
        rw [updDelay_other _ _ _ _ hct, updDelay_same]
      have e2 : (updDelay (updDelay tasks cur ticks) t
          ((tasks t).DelayTicks - ticks) t).DelayTicks
            = (tasks t).DelayTicks - ticks := by
        rw [updDelay_same]
      rw [e1, e2]
      have hgt : ¬ ((fun s => decide (s ≤ acc + ticks)) (acc + (tasks t).DelayTicks)
          = true) := by
        simp
        omega
      rw [List.takeWhile_cons_of_neg (p := fun s => decide (s ≤ acc + ticks)) hgt,
        List.dropWhile_cons_of_neg (p := fun s => decide (s ≤ acc + ticks)) hgt,
        List.nil_append]
      have hacc : acc + ticks + ((tasks t).DelayTicks - ticks)
          = acc + (tasks t).DelayTicks := by omega
      rw [hacc]
      congr 1
      congr 1
      apply delayAbsOffsets_congr
      intro x hx
      have hxc : x ≠ cur := by intro hc; exact hcr (hc ▸ hx)
      have hxt : x ≠ t := by intro hc; exact htr (hc ▸ hx)
      rw [updDelay_other _ _ _ _ hxt, updDelay_other _ _ _ _ hxc]

/-- Per-tick wake record: run `n` delay-phase steps starting at tick
index `t0`, collecting `(tick, woken tasks)` pairs; stops if the wake
loop faults. -/
def wakeTrace : Nat → Kernel → Nat → List (Nat × List TaskId)
  | 0, _, _ => []
  | n + 1, k, t0 =>
    let r := tickDelayStep k
    (if r.2.1 = [] then [] else [(t0, r.2.1)])
      ++ (if r.2.2 then [] else wakeTrace n r.1 (t0 + 1))

/-- Initial state for the delay-ordering scenario: T1, T2, T3 (ids 1, 2,
3, priorities 5, 6, 7) ready, idle task 0 at priority 31. -/
def kDelayScenario : Kernel :=
  { g_PrioMap := (1 <<< 5) ||| (1 <<< 6) ||| (1 <<< 7) ||| (1 <<< 31)
    ReadyList := fun q =>
      if q = 5 then [1] else if q = 6 then [2] else if q = 7 then [3]
      else if q = 31 then [0] else []
    DelayList := []
    tasks := fun x =>
      if x = 1 then ⟨.TASK_READY, 0, 5, 5⟩
      else if x = 2 then ⟨.TASK_READY, 0, 6, 6⟩
      else if x = 3 then ⟨.TASK_READY, 0, 7, 7⟩
      else ⟨.TASK_READY, 0, 31, 31⟩
    CurrentTCB := 1
    NextTCB := none
    g_SystemTickCount := 0
    g_OSRunning := true
    swi := false }

/-- T1 delays 50, then T2 delays 10, then T3 delays 30, at tick 0. -/
def delayScenario : Kernel :=
  OS_Delay (setCurrent (OS_Delay (setCurrent (OS_Delay kDelayScenario 50) 2) 10) 3) 30

/-- **C5** — Delta-encoded delay insertion: (1) in general, `OS_Delay`
blocks the caller and the insertion walk preserves every existing
node's absolute wake offset while giving the new node absolute offset
`n` — the sum of `DelayTicks` along the list equals each node's
absolute wake offset, and the new node lands after exactly the prefix
of offsets `≤ n`; (2) concretely, `delay(50)`, `delay(10)`, `delay(30)`
issued in that order produce the list `[T2, T3, T1]` with delta
encoding `[10, 20, 20]`; (3) the wake order over 50 ticks is T2 at tick
10, T3 at tick 30, T1 at tick 50. -/
theorem delayDeltaEncoding :
    (∀ (k : Kernel) (n : Nat), k.CurrentTCB ∉ k.DelayList → k.DelayList.Nodup →
      ((OS_Delay k n).tasks k.CurrentTCB).State = OS_TaskState.TASK_BLOCKED ∧
        delayAbsOffsets (OS_Delay k n).tasks 0 (OS_Delay k n).DelayList
          = (delayAbsOffsets k.tasks 0 k.DelayList).takeWhile (fun s => decide (s ≤ n))
            ++ n :: (delayAbsOffsets k.tasks 0 k.DelayList).dropWhile
                (fun s => decide (s ≤ n))) ∧
      delayScenario.DelayList = [2, 3, 1] ∧
      List.map (fun t => (delayScenario.tasks t).DelayTicks) delayScenario.DelayList
        = [10, 20, 20] ∧
      wakeTrace 50 delayScenario 1 = [(10, [2]), (30, [3]), (50, [1])] := by
  refine ⟨?_, by rfl, by rfl, by rfl⟩
  intro k n hcur hnd
  constructor
  · have h1 := OS_DelayInsert_cur_state
      (OS_ReadyListRemove (setState k k.CurrentTCB .TASK_BLOCKED) k.CurrentTCB).tasks
      (OS_ReadyListRemove (setState k k.CurrentTCB .TASK_BLOCKED) k.CurrentTCB).CurrentTCB
      n
      (OS_ReadyListRemove (setState k k.CurrentTCB .TASK_BLOCKED) k.CurrentTCB).DelayList
    have h2 : ((OS_ReadyListRemove (setState k k.CurrentTCB .TASK_BLOCKED)
        k.CurrentTCB).tasks k.CurrentTCB).State = OS_TaskState.TASK_BLOCKED := by
      simp [OS_ReadyListRemove, setState, setTCB]
    exact h1.trans h2
  · have h3 := OS_DelayInsert_offsets
      (OS_ReadyListRemove (setState k k.CurrentTCB .TASK_BLOCKED) k.CurrentTCB).DelayList
      (OS_ReadyListRemove (setState k k.CurrentTCB .TASK_BLOCKED) k.CurrentTCB).tasks
      (OS_ReadyListRemove (setState k k.CurrentTCB .TASK_BLOCKED) k.CurrentTCB).CurrentTCB
      n 0 hcur hnd
    rw [Nat.zero_add] at h3
    have hco2 : delayAbsOffsets
        (OS_ReadyListRemove (setState k k.CurrentTCB .TASK_BLOCKED) k.CurrentTCB).tasks
        0
        (OS_ReadyListRemove (setState k k.CurrentTCB .TASK_BLOCKED) k.CurrentTCB).DelayList
          = delayAbsOffsets k.tasks 0 k.DelayList := by
      refine delayAbsOffsets_congr _ _ 0 k.DelayList ?_
      intro x hx
      have hxc : x ≠ k.CurrentTCB := by intro hc; exact hcur (hc ▸ hx)
      simp [OS_ReadyListRemove, setState, setTCB, hxc]
    rw [← hco2]
    exact h3

/-- Witness for the universally quantified part of `delayDeltaEncoding`
at `kernelW`, `n = 7`. -/
theorem delayDeltaEncoding_witness :
    ((OS_Delay kernelW 7).tasks kernelW.CurrentTCB).State = OS_TaskState.TASK_BLOCKED ∧
      delayAbsOffsets (OS_Delay kernelW 7).tasks 0 (OS_Delay kernelW 7).DelayList
        = (delayAbsOffsets kernelW.tasks 0 kernelW.DelayList).takeWhile
            (fun s => decide (s ≤ 7))
          ++ 7 :: (delayAbsOffsets kernelW.tasks 0 kernelW.DelayList).dropWhile
              (fun s => decide (s ≤ 7)) :=
  delayDeltaEncoding.1 kernelW 7 (by decide) (by decide)

/-! ## Priority-inheriting mutex (`os_core.c` lines 385-518) -/

/-- `struct Mutex` from `os_core.h`.  `NestCount` is a `uint8_t`;
its arithmetic is taken mod 256. -/
structure OS_Mutex where
  Owner : Option TaskId
  WaitList : List TaskId
  NestCount : Nat
  OriginalPrio : Fin 32
  deriving Repr

/-- `OS_MutexInit` (`os_core.c` lines 385-394): no owner, nest 0,
`OriginalPrio = OS_MAX_PRIO - 1`, empty wait list. -/
def OS_MutexInit : OS_Mutex :=
  { Owner := none, WaitList := [], NestCount := 0, OriginalPrio := 31 }

/-- Write a task's `Priority` field. -/
def setPriority (k : Kernel) (t : TaskId) (p : Fin 32) : Kernel :=
  setTCB k t { k.tasks t with Priority := p }

/-- The walk of the wait-list insertion in `OS_MutexPend` (`os_core.c`
lines 448-464): advance while `iter->Next->Priority <=
CurrentTCB->Priority`, then splice the current task in after `iter`. -/
def mutexWaitWalk (tasks : TaskId → OS_TCB) (cur : TaskId) : List TaskId → List TaskId
  | [] => [cur]
  | x :: xs =>
    if (tasks x).Priority ≤ (tasks cur).Priority then x :: mutexWaitWalk tasks cur xs
    else cur :: x :: xs

/-- Wait-list insertion of `OS_MutexPend` (`os_core.c` lines 433-465):
empty list → tail insert; head outranked (`Head->Priority >
CurrentTCB->Priority`) → push front; otherwise walk from the head. -/
def mutexWaitInsert (tasks : TaskId → OS_TCB) (wl : List TaskId) (cur : TaskId) :
    List TaskId :=
  match wl with
  | [] => [cur]
  | h :: t =>
    if (tasks cur).Priority < (tasks h).Priority then cur :: h :: t
    else h :: mutexWaitWalk tasks cur t

/-- `OS_MutexPend` (`os_core.c` lines 396-471).  The caller is
`CurrentTCB`.  Unowned → take it (nest 1).  Owned by the caller →
recursive nest.  Otherwise boost the owner if the caller outranks it
(ready owner: remove / set priority / reinsert; blocked owner: set
priority in place), block the caller, insert it into the
priority-ordered wait list, pick `NextTCB` and request a switch. -/
def OS_MutexPend (k : Kernel) (m : OS_Mutex) : Kernel × OS_Mutex × OS_Status :=
  match m.Owner with
  | none => (k, { m with Owner := some k.CurrentTCB, NestCount := 1 }, .OS_OK)
  | some o =>
    if o = k.CurrentTCB then
      (k, { m with NestCount := (m.NestCount + 1) % 256 }, .OS_OK)
    else
      let k1 :=
        if (k.tasks k.CurrentTCB).Priority < (k.tasks o).Priority then
          if (k.tasks o).State = OS_TaskState.TASK_READY then
            OS_ReadyListAdd
              (setPriority (OS_ReadyListRemove k o) o (k.tasks k.CurrentTCB).Priority) o
          else
            setPriority k o (k.tasks k.CurrentTCB).Priority
        else k
      let k2 := OS_ReadyListRemove (setState k1 k.CurrentTCB .TASK_BLOCKED) k.CurrentTCB
      let k3 := { k2 with NextTCB := FindNextTask k2, swi := true }
      (k3, { m with WaitList := mutexWaitInsert k2.tasks m.WaitList k.CurrentTCB }, .OS_OK)

/-- `OS_MutexPost` (`os_core.c` lines 473-518).  Non-owner → error.
`NestCount--` (uint8); if still positive, return.  Otherwise restore the
caller's priority if boosted (remove / set / reinsert), then either
release (no waiter) or hand off to the head waiter: it becomes owner
with nest 1 and is added to the ready-set (its `State` field is NOT
changed — faithful to the source), and a switch is requested. -/
def OS_MutexPost (k : Kernel) (m : OS_Mutex) : Kernel × OS_Mutex × OS_Status :=
  if m.Owner ≠ some k.CurrentTCB then (k, m, .OS_ERR_NOT_OWNER)
  else
    if (m.NestCount + 255) % 256 > 0 then
      (k, { m with NestCount := (m.NestCount + 255) % 256 }, .OS_OK)
    else
      let k1 :=
        if (k.tasks k.CurrentTCB).Priority ≠ (k.tasks k.CurrentTCB).OriginalPrio then
          OS_ReadyListAdd
            (setPriority (OS_ReadyListRemove k k.CurrentTCB) k.CurrentTCB
              (k.tasks k.CurrentTCB).OriginalPrio) k.CurrentTCB
        else k
      match m.WaitList with
      | [] => (k1, { m with NestCount := (m.NestCount + 255) % 256, Owner := none }, .OS_OK)
      | w :: rest =>
        let k2 := OS_ReadyListAdd k1 w
        let k3 := { k2 with NextTCB := FindNextTask k2, swi := true }
        (k3, { m with Owner := some w, NestCount := 1, WaitList := rest }, .OS_OK)

/-- Invariant I6: for a held mutex the owner's effective priority value
is at most every waiter's. -/
def MutexI6 (tasks : TaskId → OS_TCB) (m : OS_Mutex) : Prop :=
  match m.Owner with
  | none => True
  | some o => ∀ w ∈ m.WaitList, (tasks o).Priority ≤ (tasks w).Priority

instance (tasks : TaskId → OS_TCB) (m : OS_Mutex) : Decidable (MutexI6 tasks m) :=
  match h : m.Owner with
  | none => .isTrue (by unfold MutexI6; rw [h]; trivial)
  | some o =>
    decidable_of_iff (∀ w ∈ m.WaitList, (tasks o).Priority ≤ (tasks w).Priority)
      (by unfold MutexI6; rw [h])

/-- The owner is not on its own wait list. -/
def OwnerNotWaiting (m : OS_Mutex) : Prop :=
  match m.Owner with
  | none => True
  | some o => o ∉ m.WaitList

instance (m : OS_Mutex) : Decidable (OwnerNotWaiting m) :=
  match h : m.Owner with
  | none => .isTrue (by unfold OwnerNotWaiting; rw [h]; trivial)
  | some o =>
    decidable_of_iff (o ∉ m.WaitList) (by unfold OwnerNotWaiting; rw [h])

/-- Reachability invariant of one mutex: an unowned mutex has no
waiter; the owner never waits on itself; the wait list has no
duplicates and is sorted by effective priority value ascending; I6. -/
def MutexInv (k : Kernel) (m : OS_Mutex) : Prop :=
  (m.Owner = none → m.WaitList = []) ∧
    OwnerNotWaiting m ∧
    m.WaitList.Nodup ∧
    m.WaitList.Pairwise (fun a b => (k.tasks a).Priority ≤ (k.tasks b).Priority) ∧
    MutexI6 k.tasks m

instance (k : Kernel) (m : OS_Mutex) : Decidable (MutexInv k m) := by
  unfold MutexInv; infer_instance

theorem mutexWaitWalk_eq (tasks : TaskId → OS_TCB) (cur : TaskId) (l : List TaskId) :
    mutexWaitWalk tasks cur l
      = l.takeWhile (fun x => decide ((tasks x).Priority ≤ (tasks cur).Priority))
        ++ cur :: l.dropWhile (fun x => decide ((tasks x).Priority ≤ (tasks cur).Priority)) := by
  induction l with
  | nil => rfl
  | cons x xs ih =>
    simp only [mutexWaitWalk]
    by_cases hx : (tasks x).Priority ≤ (tasks cur).Priority
    · rw [if_pos hx, ih,
        List.takeWhile_cons_of_pos (by simpa using hx),
        List.dropWhile_cons_of_pos (by simpa using hx), List.cons_append]
    · rw [if_neg hx,
        List.takeWhile_cons_of_neg (by simpa using hx),
        List.dropWhile_cons_of_neg (by simpa using hx), List.nil_append]

/-- Shape of the wait-list insertion: the new waiter lands after
exactly the waiters whose priority value is `≤` its own (highest
priority first, FIFO among equals). -/
theorem mutexWaitInsert_eq (tasks : TaskId → OS_TCB) (wl : List TaskId) (cur : TaskId) :
    mutexWaitInsert tasks wl cur
      = wl.takeWhile (fun x => decide ((tasks x).Priority ≤ (tasks cur).Priority))
        ++ cur :: wl.dropWhile (fun x => decide ((tasks x).Priority ≤ (tasks cur).Priority)) := by
  cases wl with
  | nil => rfl
  | cons h t =>
    simp only [mutexWaitInsert]
    by_cases hh : (tasks cur).Priority < (tasks h).Priority
    · rw [if_pos hh,
        List.takeWhile_cons_of_neg (by simp; omega),
        List.dropWhile_cons_of_neg (by simp; omega), List.nil_append]
    · have hle : (tasks h).Priority ≤ (tasks cur).Priority := by omega
      rw [if_neg hh, mutexWaitWalk_eq,
        List.takeWhile_cons_of_pos (by simpa using hle),
        List.dropWhile_cons_of_pos (by simpa using hle), List.cons_append]

theorem mem_insertShape {p : TaskId → Bool} {l : List TaskId} {c x : TaskId} :
    x ∈ l.takeWhile p ++ c :: l.dropWhile p ↔ x = c ∨ x ∈ l := by
  simp only [List.mem_append, List.mem_cons]
  constructor
  · rintro (h | h | h)
    · exact Or.inr ((List.takeWhile_sublist p).subset h)
    · exact Or.inl h
    · exact Or.inr ((List.dropWhile_sublist p).subset h)
  · rintro (h | h)
    · exact Or.inr (Or.inl h)
    · rw [← List.takeWhile_append_dropWhile p l] at h
      rcases List.mem_append.mp h with h | h
      · exact Or.inl h
      · exact Or.inr (Or.inr h)

theorem nodup_insertShape {p : TaskId → Bool} {l : List TaskId} {c : TaskId}
    (hnd : l.Nodup) (hc : c ∉ l) :
    (l.takeWhile p ++ c :: l.dropWhile p).Nodup := by
  rw [List.Perm.nodup_iff List.perm_middle]
  rw [List.takeWhile_append_dropWhile]
  exact List.nodup_cons.mpr ⟨hc, hnd⟩

/-- Inserting after the `≤`-prefix preserves sortedness. -/
theorem pairwise_insertShape (f : TaskId → Fin 32) (c : TaskId) (l : List TaskId)
    (h : l.Pairwise (fun a b => f a ≤ f b)) :
    (l.takeWhile (fun x => decide (f x ≤ f c))
      ++ c :: l.dropWhile (fun x => decide (f x ≤ f c))).Pairwise
        (fun a b => f a ≤ f b) := by
  induction l with
  | nil => simp
  | cons x xs ih =>
    have hx1 := (List.pairwise_cons.mp h).1
    have hx2 := (List.pairwise_cons.mp h).2
    by_cases hx : f x ≤ f c
    · rw [List.takeWhile_cons_of_pos (by simpa using hx),
        List.dropWhile_cons_of_pos (by simpa using hx), List.cons_append]
      refine List.pairwise_cons.mpr ⟨?_, ih hx2⟩
      intro b hb
      rcases mem_insertShape.mp hb with hb | hb
      · exact hb ▸ hx
      · exact hx1 b hb
    · rw [List.takeWhile_cons_of_neg (by simpa using hx),
        List.dropWhile_cons_of_neg (by simpa using hx), List.nil_append]
      refine List.pairwise_cons.mpr ⟨?_, h⟩
      intro b hb
      have hcx : f c ≤ f x := le_of_lt (lt_of_not_le hx)
      rcases List.mem_cons.mp hb with hb | hb
      · exact hb ▸ hcx
      · exact le_trans hcx (hx1 b hb)

theorem pairwise_prio_congr (t1 t2 : TaskId → OS_TCB) (l : List TaskId)
    (h : ∀ x ∈ l, (t1 x).Priority = (t2 x).Priority)
    (hp : l.Pairwise (fun a b => (t1 a).Priority ≤ (t1 b).Priority)) :
    l.Pairwise (fun a b => (t2 a).Priority ≤ (t2 b).Priority) := by
  refine hp.imp_of_mem ?_
  intro a b ha hb hab
  rw [← h a ha, ← h b hb]
  exact hab

theorem tasks_ReadyListAdd (k : Kernel) (t : TaskId) :
    (OS_ReadyListAdd k t).tasks = k.tasks := rfl

theorem tasks_ReadyListRemove (k : Kernel) (t : TaskId) :
    (OS_ReadyListRemove k t).tasks = k.tasks := rfl

theorem tasks_setState_ne (k : Kernel) (t : TaskId) (s : OS_TaskState) (x : TaskId)
    (h : x ≠ t) : (setState k t s).tasks x = k.tasks x := by
  simp [setState, setTCB, h]

theorem tasks_setPriority_ne (k : Kernel) (t : TaskId) (p : Fin 32) (x : TaskId)
    (h : x ≠ t) : (setPriority k t p).tasks x = k.tasks x := by
  simp [setPriority, setTCB, h]

theorem prio_setState (k : Kernel) (t : TaskId) (s : OS_TaskState) (x : TaskId) :
    ((setState k t s).tasks x).Priority = (k.tasks x).Priority := by
  by_cases h : x = t
  · subst h; simp [setState, setTCB]
  · simp [setState, setTCB, h]

theorem prio_setPriority_self (k : Kernel) (t : TaskId) (p : Fin 32) :
    ((setPriority k t p).tasks t).Priority = p := by
  simp [setPriority, setTCB]

/-- Invariant preservation core for the blocking branch of
`OS_MutexPend`, abstracted over the kernel `k'` reached after the boost
and the caller's suspension. -/
theorem pend_block_inv (k k' : Kernel) (o : TaskId) (mwl : List TaskId)
    (mn : Nat) (mop : Fin 32)
    (hoc : o ≠ k.CurrentTCB)
    (hv : k.CurrentTCB ∉ mwl)
    (h2 : o ∉ mwl)
    (h3 : mwl.Nodup)
    (h4 : mwl.Pairwise (fun a b => (k.tasks a).Priority ≤ (k.tasks b).Priority))
    (h5 : ∀ w ∈ mwl, (k.tasks o).Priority ≤ (k.tasks w).Priority)
    (hpres : ∀ x ∈ mwl, (k'.tasks x).Priority = (k.tasks x).Priority)
    (hcurp : (k'.tasks k.CurrentTCB).Priority = (k.tasks k.CurrentTCB).Priority)
    (hop : (k'.tasks o).Priority ≤ (k.tasks o).Priority)
    (hople : (k'.tasks o).Priority ≤ (k.tasks k.CurrentTCB).Priority) :
    MutexInv k' ⟨some o, mutexWaitInsert k'.tasks mwl k.CurrentTCB, mn, mop⟩ := by
  refine ⟨fun h => Option.noConfusion h, ?_, ?_, ?_, ?_⟩
  · show o ∉ mutexWaitInsert k'.tasks mwl k.CurrentTCB
    rw [mutexWaitInsert_eq]
    intro hmem
    rcases mem_insertShape.mp hmem with h | h
    · exact hoc h
    · exact h2 h
  · show (mutexWaitInsert k'.tasks mwl k.CurrentTCB).Nodup
    rw [mutexWaitInsert_eq]
    exact nodup_insertShape h3 hv
  · show (mutexWaitInsert k'.tasks mwl k.CurrentTCB).Pairwise
      (fun a b => (k'.tasks a).Priority ≤ (k'.tasks b).Priority)
    rw [mutexWaitInsert_eq]
    exact pairwise_insertShape (fun t => (k'.tasks t).Priority) k.CurrentTCB mwl
      (pairwise_prio_congr k.tasks k'.tasks mwl (fun x hx => (hpres x hx).symm) h4)
  · show ∀ w ∈ mutexWaitInsert k'.tasks mwl k.CurrentTCB,
      (k'.tasks o).Priority ≤ (k'.tasks w).Priority
    rw [mutexWaitInsert_eq]
    intro w hw
    rcases mem_insertShape.mp hw with h | h
    · rw [h, hcurp]; exact hople
    · rw [hpres w h]; exact le_trans hop (h5 w h)

theorem OS_MutexPend_preserves (k : Kernel) (m : OS_Mutex)
    (hv : k.CurrentTCB ∉ m.WaitList) (hInv : MutexInv k m) :
    MutexInv (OS_MutexPend k m).1 (OS_MutexPend k m).2.1 := by
  obtain ⟨h1, h2, h3, h4, h5⟩ := hInv
  obtain ⟨mo, mwl, mn, mop⟩ := m
  cases mo with
  | none =>
    have hwl : mwl = [] := h1 rfl
    subst hwl
    exact ⟨fun h => Option.noConfusion h, List.not_mem_nil _, List.nodup_nil,
      List.Pairwise.nil, fun w hw => absurd hw (List.not_mem_nil _)⟩
  | some o =>
    dsimp only [OS_MutexPend]
    by_cases hoc : o = k.CurrentTCB
    · rw [if_pos hoc]
      exact ⟨fun h => Option.noConfusion h, h2, h3, h4, h5⟩
    · rw [if_neg hoc]
      have h2' : o ∉ mwl := h2
      have h5' : ∀ w ∈ mwl, (k.tasks o).Priority ≤ (k.tasks w).Priority := h5
      by_cases hb : (k.tasks k.CurrentTCB).Priority < (k.tasks o).Priority
      · rw [if_pos hb]
        by_cases hs : (k.tasks o).State = OS_TaskState.TASK_READY
        · rw [if_pos hs]
          refine pend_block_inv k _ o mwl mn mop hoc hv h2' h3 h4 h5' ?_ ?_ ?_ ?_
          · intro x hx
            have hxc : x ≠ k.CurrentTCB := by intro hc; exact hv (hc ▸ hx)
            have hxo : x ≠ o := by intro hc; exact h2' (hc ▸ hx)
            rw [tasks_ReadyListRemove, tasks_setState_ne _ _ _ _ hxc,
              tasks_ReadyListAdd, tasks_setPriority_ne _ _ _ _ hxo,
              tasks_ReadyListRemove]
          · rw [tasks_ReadyListRemove, prio_setState, tasks_ReadyListAdd,
              tasks_setPriority_ne _ _ _ _ (fun hc => hoc hc.symm),
              tasks_ReadyListRemove]
          · rw [tasks_ReadyListRemove,
              tasks_setState_ne _ _ _ _ hoc, tasks_ReadyListAdd,
              prio_setPriority_self]
            exact le_of_lt hb
          · rw [tasks_ReadyListRemove,
              tasks_setState_ne _ _ _ _ hoc, tasks_ReadyListAdd,
              prio_setPriority_self]
        · rw [if_neg hs]
          refine pend_block_inv k _ o mwl mn mop hoc hv h2' h3 h4 h5' ?_ ?_ ?_ ?_
          · intro x hx
            have hxc : x ≠ k.CurrentTCB := by intro hc; exact hv (hc ▸ hx)
            have hxo : x ≠ o := by intro hc; exact h2' (hc ▸ hx)
            rw [tasks_ReadyListRemove, tasks_setState_ne _ _ _ _ hxc,
              tasks_setPriority_ne _ _ _ _ hxo]
          · rw [tasks_ReadyListRemove, prio_setState,
              tasks_setPriority_ne _ _ _ _ (fun hc => hoc hc.symm)]
          · rw [tasks_ReadyListRemove, tasks_setState_ne _ _ _ _ hoc,
              prio_setPriority_self]
            exact le_of_lt hb
          · rw [tasks_ReadyListRemove, tasks_setState_ne _ _ _ _ hoc,
              prio_setPriority_self]
      · rw [if_neg hb]
        refine pend_block_inv k _ o mwl mn mop hoc hv h2' h3 h4 h5' ?_ ?_ ?_ ?_
        · intro x hx
          have hxc : x ≠ k.CurrentTCB := by intro hc; exact hv (hc ▸ hx)
          rw [tasks_ReadyListRemove, tasks_setState_ne _ _ _ _ hxc]
        · rw [tasks_ReadyListRemove, prio_setState]
        · rw [tasks_ReadyListRemove, tasks_setState_ne _ _ _ _ hoc]
        · rw [tasks_ReadyListRemove, tasks_setState_ne _ _ _ _ hoc]
          exact le_of_not_lt hb

theorem OS_MutexPost_preserves (k : Kernel) (m : OS_Mutex) (hInv : MutexInv k m) :
    MutexInv (OS_MutexPost k m).1 (OS_MutexPost k m).2.1 := by
  obtain ⟨h1, h2, h3, h4, h5⟩ := hInv
  obtain ⟨mo, mwl, mn, mop⟩ := m
  dsimp only [OS_MutexPost]
  by_cases how : mo = some k.CurrentTCB
  · subst how
    rw [if_neg (by simp)]
    by_cases hn : (mn + 255) % 256 > 0
    · rw [if_pos hn]
      exact ⟨fun h => Option.noConfusion h, h2, h3, h4, h5⟩
    · rw [if_neg hn]
      have hcw : k.CurrentTCB ∉ mwl := h2
      have hpres : ∀ x, x ≠ k.CurrentTCB →
          (((if (k.tasks k.CurrentTCB).Priority ≠ (k.tasks k.CurrentTCB).OriginalPrio then
              OS_ReadyListAdd
                (setPriority (OS_ReadyListRemove k k.CurrentTCB) k.CurrentTCB
                  (k.tasks k.CurrentTCB).OriginalPrio) k.CurrentTCB
            else k)).tasks x).Priority = (k.tasks x).Priority := by
        intro x hx
        by_cases hrp : (k.tasks k.CurrentTCB).Priority ≠ (k.tasks k.CurrentTCB).OriginalPrio
        · rw [if_pos hrp, tasks_ReadyListAdd, tasks_setPriority_ne _ _ _ _ hx,
            tasks_ReadyListRemove]
        · rw [if_neg hrp]
      cases mwl with
      | nil =>
        exact ⟨fun _ => rfl, trivial, List.nodup_nil, List.Pairwise.nil, trivial⟩
      | cons w rest =>
        have hp4 : (w :: rest).Pairwise (fun a b =>
            (((if (k.tasks k.CurrentTCB).Priority
                ≠ (k.tasks k.CurrentTCB).OriginalPrio then
              OS_ReadyListAdd
                (setPriority (OS_ReadyListRemove k k.CurrentTCB) k.CurrentTCB
                  (k.tasks k.CurrentTCB).OriginalPrio) k.CurrentTCB
            else k)).tasks a).Priority
              ≤ (((if (k.tasks k.CurrentTCB).Priority
                ≠ (k.tasks k.CurrentTCB).OriginalPrio then
              OS_ReadyListAdd
                (setPriority (OS_ReadyListRemove k k.CurrentTCB) k.CurrentTCB
                  (k.tasks k.CurrentTCB).OriginalPrio) k.CurrentTCB
            else k)).tasks b).Priority) := by
          refine pairwise_prio_congr k.tasks _ _ ?_ h4
          intro x hx
          have hxc : x ≠ k.CurrentTCB := by intro hc; exact hcw (hc ▸ hx)
          exact (hpres x hxc).symm
        refine ⟨fun h => Option.noConfusion h, ?_, (List.nodup_cons.mp h3).2,
          (List.pairwise_cons.mp hp4).2, ?_⟩
        · show w ∉ rest
          exact (List.nodup_cons.mp h3).1
        · show ∀ x ∈ rest, _ ≤ _
          exact (List.pairwise_cons.mp hp4).1
  · rw [if_pos how]
    exact ⟨h1, h2, h3, h4, h5⟩

/-- The two mutex operations, as steps of a call sequence.  A step sets
`CurrentTCB` to the caller (the context switch that let the caller run)
and applies the operation to the shared mutex. -/
inductive MuOp where
  | pend
  | post
  deriving DecidableEq, Repr

def muStep (km : Kernel × OS_Mutex) (c : TaskId) (op : MuOp) : Kernel × OS_Mutex :=
  match op with
  | .pend =>
    let r := OS_MutexPend (setCurrent km.1 c) km.2
    (r.1, r.2.1)
  | .post =>
    let r := OS_MutexPost (setCurrent km.1 c) km.2
    (r.1, r.2.1)

def muRun : List (TaskId × MuOp) → Kernel × OS_Mutex → Kernel × OS_Mutex
  | [], km => km
  | (c, op) :: ops, km => muRun ops (muStep km c op)

/-- A call is valid when its caller is not currently blocked on the
mutex's wait list (a blocked task cannot run, hence cannot call). -/
def ValidCall (km : Kernel × OS_Mutex) (c : TaskId) (op : MuOp) : Prop :=
  match op with
  | .pend => c ∉ km.2.WaitList
  | .post => True

instance instDecValidCall (km : Kernel × OS_Mutex) (c : TaskId) (op : MuOp) :
    Decidable (ValidCall km c op) :=
  match op with
  | .pend => inferInstanceAs (Decidable (c ∉ km.2.WaitList))
  | .post => inferInstanceAs (Decidable True)

def ValidSeq : List (TaskId × MuOp) → Kernel × OS_Mutex → Prop
  | [], _ => True
  | (c, op) :: ops, km => ValidCall km c op ∧ ValidSeq ops (muStep km c op)

instance instDecValidSeq : (ops : List (TaskId × MuOp)) → (km : Kernel × OS_Mutex) →
    Decidable (ValidSeq ops km)
  | [], _ => .isTrue trivial
  | (c, op) :: ops, km =>
    haveI : Decidable (ValidSeq ops (muStep km c op)) :=
      instDecValidSeq ops (muStep km c op)
    inferInstanceAs (Decidable (ValidCall km c op ∧ ValidSeq ops (muStep km c op)))

theorem muStep_preserves (km : Kernel × OS_Mutex) (c : TaskId) (op : MuOp)
    (hv : ValidCall km c op) (hInv : MutexInv km.1 km.2) :
    MutexInv (muStep km c op).1 (muStep km c op).2 := by
  cases op with
  | pend => exact OS_MutexPend_preserves (setCurrent km.1 c) km.2 hv hInv
  | post => exact OS_MutexPost_preserves (setCurrent km.1 c) km.2 hInv

theorem muRun_preserves (ops : List (TaskId × MuOp)) :
    ∀ km, MutexInv km.1 km.2 → ValidSeq ops km →
      MutexInv (muRun ops km).1 (muRun ops km).2 := by
  induction ops with
  | nil => exact fun km h _ => h
  | cons cop ops ih =>
    obtain ⟨c, op⟩ := cop
    intro km h hv
    exact ih _ (muStep_preserves km c op hv.1 h) hv.2

/-- **C2 (amended)** — Mutex priority-inheritance invariant, restricted
to call sequences on a single mutex (equivalently: no waiter of the
mutex owns a second, contended mutex): starting from any state
satisfying the mutex reachability invariant, after any valid finite
sequence of `OS_MutexPend` / `OS_MutexPost` calls by any tasks, I6
holds — the owner's effective priority value is `≤` every waiter's.
Every prefix of a valid sequence is itself a valid sequence, so I6
holds at every call return.  (The unrestricted claim is refuted by
`mutexI6_violated_multiMutex`: with two mutexes, an in-place boost of a
blocked waiter drops it below its mutex's owner.) -/
theorem mutexPriorityInheritanceI6 (ops : List (TaskId × MuOp))
    (km : Kernel × OS_Mutex) (hInv : MutexInv km.1 km.2) (hv : ValidSeq ops km) :
    MutexI6 (muRun ops km).1.tasks (muRun ops km).2 :=
  (muRun_preserves ops km hInv hv).2.2.2.2

/-- Witness for `mutexPriorityInheritanceI6`: tasks 1 and 2 contend the
mutex (pend by 1, pend by 2 — blocking and boosting — then post by 1,
handing off to 2). -/
theorem mutexPriorityInheritanceI6_witness :
    MutexI6 (muRun [(1, MuOp.pend), (2, MuOp.pend), (1, MuOp.post)]
        (kDelayScenario, OS_MutexInit)).1.tasks
      (muRun [(1, MuOp.pend), (2, MuOp.pend), (1, MuOp.post)]
        (kDelayScenario, OS_MutexInit)).2 :=
  mutexPriorityInheritanceI6 [(1, MuOp.pend), (2, MuOp.pend), (1, MuOp.post)]
    (kDelayScenario, OS_MutexInit) (by decide) (by decide)

/-- Tasks for the I6 counterexample: A = 1 (prio 20), B = 2 (prio 15),
C = 3 (prio 5), idle 0 (prio 31). -/
def kMutexCx : Kernel :=
  { g_PrioMap := (1 <<< 20) ||| (1 <<< 15) ||| (1 <<< 5) ||| (1 <<< 31)
    ReadyList := fun q =>
      if q = 20 then [1] else if q = 15 then [2] else if q = 5 then [3]
      else if q = 31 then [0] else []
    DelayList := []
    tasks := fun x =>
      if x = 1 then ⟨.TASK_READY, 0, 20, 20⟩
      else if x = 2 then ⟨.TASK_READY, 0, 15, 15⟩
      else if x = 3 then ⟨.TASK_READY, 0, 5, 5⟩
      else ⟨.TASK_READY, 0, 31, 31⟩
    CurrentTCB := 1
    NextTCB := none
    g_SystemTickCount := 0
    g_OSRunning := true
    swi := false }

/-- A takes mutex 1. -/
def mcx1 : Kernel × OS_Mutex × OS_Status := OS_MutexPend (setCurrent kMutexCx 1) OS_MutexInit
/-- B takes mutex 2. -/
def mcx2 : Kernel × OS_Mutex × OS_Status := OS_MutexPend (setCurrent mcx1.1 2) OS_MutexInit
/-- B pends mutex 1: A is boosted to 15, B blocks on mutex 1. -/
def mcx3 : Kernel × OS_Mutex × OS_Status := OS_MutexPend (setCurrent mcx2.1 2) mcx1.2.1
/-- C pends mutex 2: its owner B is blocked, so B's priority is
rewritten in place to 5; C blocks on mutex 2. -/
def mcx4 : Kernel × OS_Mutex × OS_Status := OS_MutexPend (setCurrent mcx3.1 3) mcx2.2.1

/-- **C2 counterexample** — with two mutexes held at once the claimed
invariant is false at a concrete reachable state: after A(prio 20)
takes M1, B(15) takes M2 then blocks on M1 (boosting A to 15), and
C(5) pends M2 (boosting the blocked B in place to 5), mutex M1 is held
by A with effective priority 15 while its wait list holds B with
effective priority 5 — the owner's priority value exceeds a waiter's,
and every one of the four pend calls has returned or suspended its
caller with this state visible. -/
theorem mutexI6_violated_multiMutex :
    mcx3.2.1.Owner = some 1 ∧ mcx3.2.1.WaitList = [2] ∧
      ((mcx4.1.tasks 1).Priority : Nat) = 15 ∧
      ((mcx4.1.tasks 2).Priority : Nat) = 5 ∧
      ¬ MutexI6 mcx4.1.tasks mcx3.2.1 := by
  decide

/-- **C6** — Mutex wait-list ordering and handoff: (1) a blocked waiter
is inserted after exactly the waiters whose priority value is `≤` its
own — the list is ordered by effective priority value ascending with
FIFO arrival order among equal priorities; (2) the insertion keeps the
wait list sorted; (3) on a final `OS_MutexPost` (owner releasing with
nest count 1) with a non-empty wait list, the head waiter is popped and
made the new owner with nest count 1, the remainder stays, the waiter
is added to the ready-set bucket of its priority, a switch is
requested, and the call returns OK. -/
theorem mutexWaitOrderAndHandoff :
    (∀ (tasks : TaskId → OS_TCB) (wl : List TaskId) (c : TaskId),
      mutexWaitInsert tasks wl c
        = wl.takeWhile (fun x => decide ((tasks x).Priority ≤ (tasks c).Priority))
          ++ c :: wl.dropWhile (fun x => decide ((tasks x).Priority ≤ (tasks c).Priority))) ∧
    (∀ (tasks : TaskId → OS_TCB) (wl : List TaskId) (c : TaskId),
      wl.Pairwise (fun a b => (tasks a).Priority ≤ (tasks b).Priority) →
        (mutexWaitInsert tasks wl c).Pairwise
          (fun a b => (tasks a).Priority ≤ (tasks b).Priority)) ∧
    (∀ (k : Kernel) (m : OS_Mutex) (w : TaskId) (rest : List TaskId),
      m.Owner = some k.CurrentTCB → m.NestCount = 1 → m.WaitList = w :: rest →
        (OS_MutexPost k m).2.2 = OS_Status.OS_OK ∧
        (OS_MutexPost k m).2.1.Owner = some w ∧
        (OS_MutexPost k m).2.1.NestCount = 1 ∧
        (OS_MutexPost k m).2.1.WaitList = rest ∧
        (OS_MutexPost k m).1.swi = true ∧
        w ∈ (OS_MutexPost k m).1.ReadyList (((OS_MutexPost k m).1.tasks w).Priority)) := by
  refine ⟨mutexWaitInsert_eq, ?_, ?_⟩
  · intro tasks wl c h
    rw [mutexWaitInsert_eq]
    exact pairwise_insertShape (fun t => (tasks t).Priority) c wl h
  · intro k m w rest hO hn hwl
    obtain ⟨mo, mwl, mn, mop⟩ := m
    simp only at hO hn hwl
    subst hO
    subst hn
    subst hwl
    dsimp only [OS_MutexPost]
    rw [if_neg (by simp)]
    rw [if_neg (by norm_num)]
    refine ⟨rfl, rfl, rfl, rfl, rfl, ?_⟩
    simp [OS_ReadyListAdd, List_InsertTail]

/-- Witness for the handoff clause of `mutexWaitOrderAndHandoff` at a
concrete state: mutex held by task 1 (the current task, nest 1) with
waiters `[2, 3]`. -/
theorem mutexWaitOrderAndHandoff_witness :
    (OS_MutexPost kMutexCx ⟨some 1, [2, 3], 1, 31⟩).2.2 = OS_Status.OS_OK ∧
      (OS_MutexPost kMutexCx ⟨some 1, [2, 3], 1, 31⟩).2.1.Owner = some 2 ∧
      (OS_MutexPost kMutexCx ⟨some 1, [2, 3], 1, 31⟩).2.1.NestCount = 1 ∧
      (OS_MutexPost kMutexCx ⟨some 1, [2, 3], 1, 31⟩).2.1.WaitList = [3] ∧
      (OS_MutexPost kMutexCx ⟨some 1, [2, 3], 1, 31⟩).1.swi = true ∧
      2 ∈ (OS_MutexPost kMutexCx ⟨some 1, [2, 3], 1, 31⟩).1.ReadyList
        (((OS_MutexPost kMutexCx ⟨some 1, [2, 3], 1, 31⟩).1.tasks 2).Priority) :=
  mutexWaitOrderAndHandoff.2.2 kMutexCx ⟨some 1, [2, 3], 1, 31⟩ 2 [3] rfl rfl rfl

/-! ## Message queue (`os_core.c` lines 520-596) -/

/-- `struct Queue` from `os_core.h`.  `Buffer` is the byte array the
user supplied, modelled as a map from byte offset to byte value. -/
structure OS_Queue where
  Buffer : Nat → Nat
  MsgSize : Nat
  QSize : Nat
  MsgCount : Nat
  Head : Nat
  Tail : Nat
  WaitReadList : List TaskId

/-- `memcpy(dst + off, src, n)` on byte maps. -/
def memcpyAt (dst : Nat → Nat) (off : Nat) (src : Nat → Nat) (n : Nat) : Nat → Nat :=
  fun a => if off ≤ a ∧ a < off + n then src (a - off) else dst a

/-- `OS_QueueSend` (`os_core.c` lines 534-566): full → `OS_ERR_Q_FULL`
with nothing touched; otherwise copy `MsgSize` bytes of the message
into slot `Head`, advance `Head` modulo `QSize`, increment `MsgCount`;
if a reader waits, pop it, set it Ready, add it to the ready-set and
request a switch.  The sender is never suspended. -/
def OS_QueueSend (k : Kernel) (q : OS_Queue) (msg : Nat → Nat) :
    Kernel × OS_Queue × OS_Status :=
  if q.MsgCount ≥ q.QSize then (k, q, .OS_ERR_Q_FULL)
  else
    let q1 := { q with
      Buffer := memcpyAt q.Buffer (q.Head * q.MsgSize) msg q.MsgSize,
      Head := (q.Head + 1) % q.QSize,
      MsgCount := q.MsgCount + 1 }
    match q1.WaitReadList with
    | [] => (k, q1, .OS_OK)
    | w :: rest =>
      let k1 := OS_ReadyListAdd (setState k w .TASK_READY) w
      let k2 := { k1 with NextTCB := FindNextTask k1, swi := true }
      (k2, { q1 with WaitReadList := rest }, .OS_OK)

/-- **C8** — Queue send never blocks and is atomic on failure: with
`MsgCount = QSize` the call returns `OS_ERR_Q_FULL` and the kernel and
the entire queue are unchanged (so the caller stays ready); otherwise
it returns OK, writes exactly `MsgSize` bytes of the message into slot
`Head` (all other buffer bytes unchanged), advances `Head` modulo
`QSize`, increments `MsgCount`, leaves `Tail`/`MsgSize`/`QSize` alone,
and — if the read-wait list is non-empty — wakes its head task (Ready,
inserted into the ready-set) and requests a switch; the sender's state
is never changed in either case. -/
theorem queueSendNeverBlocks :
    (∀ (k : Kernel) (q : OS_Queue) (msg : Nat → Nat), q.MsgCount = q.QSize →
      OS_QueueSend k q msg = (k, q, OS_Status.OS_ERR_Q_FULL)) ∧
    (∀ (k : Kernel) (q : OS_Queue) (msg : Nat → Nat), q.MsgCount < q.QSize →
      k.CurrentTCB ∉ q.WaitReadList →
        (OS_QueueSend k q msg).2.2 = OS_Status.OS_OK ∧
        (∀ i, i < q.MsgSize →
          (OS_QueueSend k q msg).2.1.Buffer (q.Head * q.MsgSize + i) = msg i) ∧
        (∀ a, (a < q.Head * q.MsgSize ∨ q.Head * q.MsgSize + q.MsgSize ≤ a) →
          (OS_QueueSend k q msg).2.1.Buffer a = q.Buffer a) ∧
        (OS_QueueSend k q msg).2.1.Head = (q.Head + 1) % q.QSize ∧
        (OS_QueueSend k q msg).2.1.MsgCount = q.MsgCount + 1 ∧
        (OS_QueueSend k q msg).2.1.Tail = q.Tail ∧
        (OS_QueueSend k q msg).2.1.MsgSize = q.MsgSize ∧
        (OS_QueueSend k q msg).2.1.QSize = q.QSize ∧
        (q.WaitReadList = [] →
          (OS_QueueSend k q msg).1 = k ∧ (OS_QueueSend k q msg).2.1.WaitReadList = []) ∧
        (∀ w rest, q.WaitReadList = w :: rest →
          (OS_QueueSend k q msg).2.1.WaitReadList = rest ∧
          ((OS_QueueSend k q msg).1.tasks w).State = OS_TaskState.TASK_READY ∧
          w ∈ (OS_QueueSend k q msg).1.ReadyList
            (((OS_QueueSend k q msg).1.tasks w).Priority) ∧
          (OS_QueueSend k q msg).1.swi = true) ∧
        ((OS_QueueSend k q msg).1.tasks k.CurrentTCB).State
          = (k.tasks k.CurrentTCB).State) := by
  constructor
  · intro k q msg h
    dsimp only [OS_QueueSend]
    rw [if_pos (by omega)]
  · intro k q msg hlt hcur
    obtain ⟨buf, ms, qs, mc, hd, tl, wrl⟩ := q
    dsimp only [OS_QueueSend] at *
    rw [if_neg (by omega)]
    cases wrl with
    | nil =>
      dsimp only
      refine ⟨rfl, ?_, ?_, rfl, rfl, rfl, rfl, rfl, fun _ => ⟨rfl, rfl⟩, ?_, rfl⟩
      · intro i hi
        dsimp only [memcpyAt]
        rw [if_pos ⟨Nat.le_add_right _ _, by omega⟩]
        congr 1
        omega
      · intro a ha
        dsimp only [memcpyAt]
        rw [if_neg (by omega)]
      · intro w rest h
        exact absurd h (by simp)
    | cons w' rest' =>
      dsimp only
      refine ⟨rfl, ?_, ?_, rfl, rfl, rfl, rfl, rfl, fun h => absurd h (by simp),
        ?_, ?_⟩
      · intro i hi
        dsimp only [memcpyAt]
        rw [if_pos ⟨Nat.le_add_right _ _, by omega⟩]
        congr 1
        omega
      · intro a ha
        dsimp only [memcpyAt]
        rw [if_neg (by omega)]
      · intro w rest h
        injection h with e1 e2
        subst e1
        subst e2
        refine ⟨rfl, ?_, ?_, rfl⟩
        · show ((setState k w' .TASK_READY).tasks w').State = _
          simp [setState, setTCB]
        · simp [OS_ReadyListAdd, List_InsertTail]
      · have hcw : k.CurrentTCB ≠ w' := by
          intro hc; exact hcur (by simp [hc])
        show ((setState k w' .TASK_READY).tasks k.CurrentTCB).State = _
        rw [tasks_setState_ne _ _ _ _ hcw]

/-- A concrete one-byte-message queue holding one message, for the
witnesses: capacity 2, count 1, head 1, tail 0. -/
def queueW : OS_Queue :=
  { Buffer := fun a => if a = 0 then 42 else 0
    MsgSize := 1
    QSize := 2
    MsgCount := 1
    Head := 1
    Tail := 0
    WaitReadList := [] }

theorem queueSendNeverBlocks_witness :
    (OS_QueueSend kernelW queueW (fun _ => 7)).2.2 = OS_Status.OS_OK ∧
      (∀ i, i < queueW.MsgSize →
        (OS_QueueSend kernelW queueW (fun _ => 7)).2.1.Buffer
          (queueW.Head * queueW.MsgSize + i) = (fun _ => (7 : Nat)) i) ∧
      (∀ a, (a < queueW.Head * queueW.MsgSize ∨
          queueW.Head * queueW.MsgSize + queueW.MsgSize ≤ a) →
        (OS_QueueSend kernelW queueW (fun _ => 7)).2.1.Buffer a = queueW.Buffer a) ∧
      (OS_QueueSend kernelW queueW (fun _ => 7)).2.1.Head
        = (queueW.Head + 1) % queueW.QSize ∧
      (OS_QueueSend kernelW queueW (fun _ => 7)).2.1.MsgCount = queueW.MsgCount + 1 ∧
      (OS_QueueSend kernelW queueW (fun _ => 7)).2.1.Tail = queueW.Tail ∧
      (OS_QueueSend kernelW queueW (fun _ => 7)).2.1.MsgSize = queueW.MsgSize ∧
      (OS_QueueSend kernelW queueW (fun _ => 7)).2.1.QSize = queueW.QSize ∧
      (queueW.WaitReadList = [] →
        (OS_QueueSend kernelW queueW (fun _ => 7)).1 = kernelW ∧
        (OS_QueueSend kernelW queueW (fun _ => 7)).2.1.WaitReadList = []) ∧
      (∀ w rest, queueW.WaitReadList = w :: rest →
        (OS_QueueSend kernelW queueW (fun _ => 7)).2.1.WaitReadList = rest ∧
        ((OS_QueueSend kernelW queueW (fun _ => 7)).1.tasks w).State
          = OS_TaskState.TASK_READY ∧
        w ∈ (OS_QueueSend kernelW queueW (fun _ => 7)).1.ReadyList
          (((OS_QueueSend kernelW queueW (fun _ => 7)).1.tasks w).Priority) ∧
        (OS_QueueSend kernelW queueW (fun _ => 7)).1.swi = true) ∧
      ((OS_QueueSend kernelW queueW (fun _ => 7)).1.tasks kernelW.CurrentTCB).State
        = (kernelW.tasks kernelW.CurrentTCB).State :=
  queueSendNeverBlocks.2 kernelW queueW (fun _ => 7) (by decide) (by decide)

/-- Modelled from the spec: `OS_QueueReceiveFromISR` is declared in
`os_core.h` (lines 394-404) but its implementation is not among the
provided sources.  Per the spec (§4.9): if the queue is empty return
`Resource`; otherwise copy the message at slot `Tail` to the caller's
buffer, advance `Tail` modulo capacity, decrement the count; never
blocks (the kernel state is passed through untouched).  The copy
mirrors the body of `OS_QueueReceive` (`os_core.c` lines 589-592). -/
def OS_QueueReceiveFromISR (k : Kernel) (q : OS_Queue) (buf : Nat → Nat) :
    Kernel × OS_Queue × (Nat → Nat) × OS_Status :=
  if q.MsgCount = 0 then (k, q, buf, .OS_ERR_RESOURCE)
  else
    (k,
     { q with Tail := (q.Tail + 1) % q.QSize, MsgCount := q.MsgCount - 1 },
     memcpyAt buf 0 (fun i => q.Buffer (q.Tail * q.MsgSize + i)) q.MsgSize,
     .OS_OK)

/-- **C10** — ISR-safe queue receive: with `MsgCount = 0` the call
returns the `Resource` error and changes nothing; otherwise it copies
the `MsgSize` bytes at slot `Tail` into the caller's buffer, advances
`Tail` modulo capacity, decrements the count and returns OK; in every
case the kernel state is returned untouched — the caller is never
suspended. -/
theorem queueReceiveFromISR_spec :
    (∀ (k : Kernel) (q : OS_Queue) (buf : Nat → Nat), q.MsgCount = 0 →
      OS_QueueReceiveFromISR k q buf = (k, q, buf, OS_Status.OS_ERR_RESOURCE)) ∧
    (∀ (k : Kernel) (q : OS_Queue) (buf : Nat → Nat), q.MsgCount ≠ 0 →
      (OS_QueueReceiveFromISR k q buf).2.2.2 = OS_Status.OS_OK ∧
      (∀ i, i < q.MsgSize →
        (OS_QueueReceiveFromISR k q buf).2.2.1 i = q.Buffer (q.Tail * q.MsgSize + i)) ∧
      (∀ i, q.MsgSize ≤ i → (OS_QueueReceiveFromISR k q buf).2.2.1 i = buf i) ∧
      (OS_QueueReceiveFromISR k q buf).2.1.Tail = (q.Tail + 1) % q.QSize ∧
      (OS_QueueReceiveFromISR k q buf).2.1.MsgCount = q.MsgCount - 1 ∧
      (OS_QueueReceiveFromISR k q buf).2.1.Head = q.Head ∧
      (OS_QueueReceiveFromISR k q buf).2.1.Buffer = q.Buffer ∧
      (OS_QueueReceiveFromISR k q buf).2.1.WaitReadList = q.WaitReadList) ∧
    (∀ (k : Kernel) (q : OS_Queue) (buf : Nat → Nat),
      (OS_QueueReceiveFromISR k q buf).1 = k) := by
  refine ⟨?_, ?_, ?_⟩
  · intro k q buf h
    dsimp only [OS_QueueReceiveFromISR]
    rw [if_pos h]
  · intro k q buf h
    dsimp only [OS_QueueReceiveFromISR]
    rw [if_neg h]
    refine ⟨rfl, ?_, ?_, rfl, rfl, rfl, rfl, rfl⟩
    · intro i hi
      dsimp only [memcpyAt]
      rw [if_pos ⟨Nat.zero_le _, by omega⟩]
      congr 1
    · intro i hi
      dsimp only [memcpyAt]
      rw [if_neg (by omega)]
  · intro k q buf
    dsimp only [OS_QueueReceiveFromISR]
    by_cases h : q.MsgCount = 0
    · rw [if_pos h]
    · rw [if_neg h]

theorem queueReceiveFromISR_witness :
    (OS_QueueReceiveFromISR kernelW queueW (fun _ => 0)).2.2.2 = OS_Status.OS_OK ∧
      (∀ i, i < queueW.MsgSize →
        (OS_QueueReceiveFromISR kernelW queueW (fun _ => 0)).2.2.1 i
          = queueW.Buffer (queueW.Tail * queueW.MsgSize + i)) ∧
      (∀ i, queueW.MsgSize ≤ i →
        (OS_QueueReceiveFromISR kernelW queueW (fun _ => 0)).2.2.1 i
          = (fun _ => (0 : Nat)) i) ∧
      (OS_QueueReceiveFromISR kernelW queueW (fun _ => 0)).2.1.Tail
        = (queueW.Tail + 1) % queueW.QSize ∧
      (OS_QueueReceiveFromISR kernelW queueW (fun _ => 0)).2.1.MsgCount
        = queueW.MsgCount - 1 ∧
      (OS_QueueReceiveFromISR kernelW queueW (fun _ => 0)).2.1.Head = queueW.Head ∧
      (OS_QueueReceiveFromISR kernelW queueW (fun _ => 0)).2.1.Buffer = queueW.Buffer ∧
      (OS_QueueReceiveFromISR kernelW queueW (fun _ => 0)).2.1.WaitReadList
        = queueW.WaitReadList :=
  queueReceiveFromISR_spec.2.1 kernelW queueW (fun _ => 0) (by decide)

/-! ## Fixed-block memory pool (`os_core.c` lines 598-700) -/

/-- `struct MemBlock` from `os_core.h`.  Addresses are modelled as
naturals; the null pointer is address 0.  `FreeList` is the address of
the first free block (0 = empty). -/
structure OS_Mem where
  Addr : Nat
  FreeList : Nat
  BlockSize : Nat
  TotalBlocks : Nat
  FreeBlocks : Nat
  WaitList : List TaskId

/-- `OS_MemPut` (`os_core.c` lines 658-700), with `heap` the
word-granular memory holding each free block's embedded next pointer.
Null block → `OS_ERR_PARAM`; out of `[Addr, Addr + TotalBlocks *
BlockSize)` (the product is a `uint32_t`) → `OS_ERR_INVALID_ADDR`;
misaligned `(blk - Addr) % BlockSize` → `OS_ERR_NOT_ALIGN`; otherwise
push the block onto the free list (`*block = FreeList; FreeList =
block; FreeBlocks++`), and if a task waits on the pool, wake the head
waiter and request a switch. -/
def OS_MemPut (k : Kernel) (heap : Nat → Nat) (m : OS_Mem) (blk : Nat) :
    Kernel × (Nat → Nat) × OS_Mem × OS_Status :=
  if blk = 0 then (k, heap, m, .OS_ERR_PARAM)
  else if blk < m.Addr ∨ m.Addr + (m.TotalBlocks * m.BlockSize) % 2 ^ 32 ≤ blk then
    (k, heap, m, .OS_ERR_INVALID_ADDR)
  else if (blk - m.Addr) % m.BlockSize ≠ 0 then
    (k, heap, m, .OS_ERR_NOT_ALIGN)
  else
    let heap' := fun a => if a = blk then m.FreeList else heap a
    let m1 := { m with FreeList := blk, FreeBlocks := (m.FreeBlocks + 1) % 2 ^ 32 }
    match m1.WaitList with
    | [] => (k, heap', m1, .OS_OK)
    | w :: rest =>
      let k1 := OS_ReadyListAdd (setState k w .TASK_READY) w
      let k2 := { k1 with NextTCB := FindNextTask k1, swi := true }
      (k2, heap', { m1 with WaitList := rest }, .OS_OK)

/-- The pool of the spec's concrete scenario: base `0x20000000`, block
size 32, 4 blocks, currently exhausted. -/
def poolW : OS_Mem :=
  { Addr := 0x20000000, FreeList := 0, BlockSize := 32, TotalBlocks := 4,
    FreeBlocks := 0, WaitList := [] }

/-- **C9 counterexample** — the raises-iff as claimed is false at
`block = NULL`: address 0 lies outside `[base, base + blocks *
block_size)`, yet `OS_MemPut` returns `OS_ERR_PARAM` (the null-argument
check fires first), not `OS_ERR_INVALID_ADDR`. -/
theorem memPut_null_returns_param :
    (OS_MemPut kernelW (fun _ => 0) poolW 0).2.2.2 = OS_Status.OS_ERR_PARAM ∧
      ¬ ((OS_MemPut kernelW (fun _ => 0) poolW 0).2.2.2 = OS_Status.OS_ERR_INVALID_ADDR
        ↔ (0 < poolW.Addr ∨ poolW.Addr + poolW.TotalBlocks * poolW.BlockSize ≤ 0)) := by
  decide

/-- **C9 (amended)** — Memory-pool put validation, raises-iff, for
every NON-NULL block: `OS_MemPut` returns `InvalidAddr` exactly when
the block lies outside `[base, base + blocks * block_size)`, else
`NotAlign` exactly when `(block - base) % block_size ≠ 0`; on either
error the kernel, heap and pool are unchanged; on success it writes the
old free-list head into the block, makes the block the new free-list
head, increments `free_blocks`, wakes the wait-list head if present
(Ready, into the ready-set, switch requested) and returns Ok.
Concretely, on the spec's pool: `put(0x20000020)` → Ok,
`put(0x20000010)` → NotAlign, `put(0x20000080)` → InvalidAddr. -/
theorem memPutValidation :
    (∀ (k : Kernel) (heap : Nat → Nat) (m : OS_Mem) (blk : Nat), blk ≠ 0 →
      m.TotalBlocks * m.BlockSize < 2 ^ 32 →
      ((OS_MemPut k heap m blk).2.2.2 = OS_Status.OS_ERR_INVALID_ADDR
        ↔ (blk < m.Addr ∨ m.Addr + m.TotalBlocks * m.BlockSize ≤ blk)) ∧
      ((OS_MemPut k heap m blk).2.2.2 = OS_Status.OS_ERR_NOT_ALIGN
        ↔ (¬ (blk < m.Addr ∨ m.Addr + m.TotalBlocks * m.BlockSize ≤ blk) ∧
            (blk - m.Addr) % m.BlockSize ≠ 0)) ∧
      ((OS_MemPut k heap m blk).2.2.2 ≠ OS_Status.OS_OK →
        OS_MemPut k heap m blk = (k, heap, m, (OS_MemPut k heap m blk).2.2.2)) ∧
      ((OS_MemPut k heap m blk).2.2.2 = OS_Status.OS_OK →
        (OS_MemPut k heap m blk).2.1
          = (fun a => if a = blk then m.FreeList else heap a) ∧
        (OS_MemPut k heap m blk).2.2.1.FreeList = blk ∧
        (OS_MemPut k heap m blk).2.2.1.FreeBlocks = (m.FreeBlocks + 1) % 2 ^ 32 ∧
        (m.WaitList = [] → (OS_MemPut k heap m blk).1 = k ∧
          (OS_MemPut k heap m blk).2.2.1.WaitList = []) ∧
        (∀ w rest, m.WaitList = w :: rest →
          (OS_MemPut k heap m blk).2.2.1.WaitList = rest ∧
          ((OS_MemPut k heap m blk).1.tasks w).State = OS_TaskState.TASK_READY ∧
          w ∈ (OS_MemPut k heap m blk).1.ReadyList
            (((OS_MemPut k heap m blk).1.tasks w).Priority) ∧
          (OS_MemPut k heap m blk).1.swi = true))) ∧
    (OS_MemPut kernelW (fun _ => 0) poolW 0x20000020).2.2.2 = OS_Status.OS_OK ∧
    (OS_MemPut kernelW (fun _ => 0) poolW 0x20000010).2.2.2
      = OS_Status.OS_ERR_NOT_ALIGN ∧
    (OS_MemPut kernelW (fun _ => 0) poolW 0x20000080).2.2.2
      = OS_Status.OS_ERR_INVALID_ADDR := by
  refine ⟨?_, by decide, by decide, by decide⟩
  intro k heap m blk hnn hsz
  obtain ⟨ma, mf, mbs, mtb, mfb, mwl⟩ := m
  dsimp only [OS_MemPut] at *
  rw [if_neg hnn]
  rw [show (mtb * mbs) % 2 ^ 32 = mtb * mbs from Nat.mod_eq_of_lt hsz]
  by_cases h1 : blk < ma ∨ ma + mtb * mbs ≤ blk
  · rw [if_pos h1]
    refine ⟨iff_of_true rfl h1, ?_, fun _ => rfl, fun h => absurd h (by simp)⟩
    exact iff_of_false (by simp) (fun hc => hc.1 h1)
  · rw [if_neg h1]
    by_cases h2 : (blk - ma) % mbs ≠ 0
    · rw [if_pos h2]
      refine ⟨iff_of_false (by simp) h1, iff_of_true rfl ⟨h1, h2⟩,
        fun _ => rfl, fun h => absurd h (by simp)⟩
    · rw [if_neg h2]
      cases mwl with
      | nil =>
        refine ⟨iff_of_false (by simp) h1,
          iff_of_false (by simp) (fun hc => h2 hc.2),
          fun h => absurd rfl h,
          fun _ => ⟨rfl, rfl, rfl, fun _ => ⟨rfl, rfl⟩, fun w rest h => absurd h (by simp)⟩⟩
      | cons w' rest' =>
        refine ⟨iff_of_false (by simp) h1,
          iff_of_false (by simp) (fun hc => h2 hc.2),
          fun h => absurd rfl h,
          fun _ => ⟨rfl, rfl, rfl, fun h => absurd h (by simp), ?_⟩⟩
        intro w rest h
        injection h with e1 e2
        subst e1
        subst e2
        refine ⟨rfl, ?_, ?_, rfl⟩
        · show ((setState k w' .TASK_READY).tasks w').State = _
          simp [setState, setTCB]
        · simp [OS_ReadyListAdd, List_InsertTail]

theorem memPutValidation_witness :
    ((OS_MemPut kernelW (fun _ => 0) poolW 0x20000020).2.2.2
        = OS_Status.OS_ERR_INVALID_ADDR
      ↔ (0x20000020 < poolW.Addr ∨
          poolW.Addr + poolW.TotalBlocks * poolW.BlockSize ≤ 0x20000020)) ∧
      ((OS_MemPut kernelW (fun _ => 0) poolW 0x20000020).2.2.2
          = OS_Status.OS_ERR_NOT_ALIGN
        ↔ (¬ (0x20000020 < poolW.Addr ∨
              poolW.Addr + poolW.TotalBlocks * poolW.BlockSize ≤ 0x20000020) ∧
            (0x20000020 - poolW.Addr) % poolW.BlockSize ≠ 0)) ∧
      ((OS_MemPut kernelW (fun _ => 0) poolW 0x20000020).2.2.2 ≠ OS_Status.OS_OK →
        OS_MemPut kernelW (fun _ => 0) poolW 0x20000020
          = (kernelW, (fun _ => 0),
              poolW, (OS_MemPut kernelW (fun _ => 0) poolW 0x20000020).2.2.2)) ∧
      ((OS_MemPut kernelW (fun _ => 0) poolW 0x20000020).2.2.2 = OS_Status.OS_OK →
        (OS_MemPut kernelW (fun _ => 0) poolW 0x20000020).2.1
          = (fun a => if a = 0x20000020 then poolW.FreeList else (fun _ => (0 : Nat)) a) ∧
        (OS_MemPut kernelW (fun _ => 0) poolW 0x20000020).2.2.1.FreeList = 0x20000020 ∧
        (OS_MemPut kernelW (fun _ => 0) poolW 0x20000020).2.2.1.FreeBlocks
          = (poolW.FreeBlocks + 1) % 2 ^ 32 ∧
        (poolW.WaitList = [] →
          (OS_MemPut kernelW (fun _ => 0) poolW 0x20000020).1 = kernelW ∧
          (OS_MemPut kernelW (fun _ => 0) poolW 0x20000020).2.2.1.WaitList = []) ∧
        (∀ w rest, poolW.WaitList = w :: rest →
          (OS_MemPut kernelW (fun _ => 0) poolW 0x20000020).2.2.1.WaitList = rest ∧
          ((OS_MemPut kernelW (fun _ => 0) poolW 0x20000020).1.tasks w).State
            = OS_TaskState.TASK_READY ∧
          w ∈ (OS_MemPut kernelW (fun _ => 0) poolW 0x20000020).1.ReadyList
            (((OS_MemPut kernelW (fun _ => 0) poolW 0x20000020).1.tasks w).Priority) ∧
          (OS_MemPut kernelW (fun _ => 0) poolW 0x20000020).1.swi = true)) :=
  memPutValidation.1 kernelW (fun _ => 0) poolW 0x20000020 (by decide) (by decide)

end SandOS
